import Mathlib

/-!
# Verification of the TRVZB scheduler card's schedule model and drag engine

This file is a shallow embedding, in Lean 4, of the schedule data model,
the MQTT codec, the normalization pass, the coordinate engine and the
pointer/touch drag state machine of the TRVZB scheduler card, together
with proofs and refutations of the specification's claims about them.

Sources embedded:
* `src/models/schedule.ts` (parse/serialize/normalize, `part_004` lines 315-556);
* the graph view component (`part_003` lines 457-1449): coordinate
  conversions, the dynamic temperature range, the drag gesture handlers and
  `addTransition`;
* `src/utils/time.ts` is imported by `schedule.ts` but its text is not part
  of the repository snapshot, so `compareTime` is modelled from the spec
  (see its doc comment).

Conventions:
* JS `number` is modelled as `Rat`; every arithmetic operation performed by
  the embedded code (min/max, floor/ceil, `Math.round`, linear maps,
  halving) is exact on the rationals actually reached, so no floating point
  behaviour is lost on the domains the claims quantify over.
* JS strings are Lean `String`s; the character-level helpers below model
  `trim`, `split(/\s+/)`, `join(' ')` and the transition-token regular
  expression of `parseDaySchedule`.
* The id generator `generateTransitionId` uses `Date.now()` plus a session
  counter; the wall clock is environment input, so the model threads an
  explicit `Nat` counter and derives fresh ids from it.  No claim depends
  on the concrete text of a generated id.
* Event dispatch (`dispatchEvent`) is modelled by returning the list of
  emitted `schedule-changed` payloads; DOM listener bookkeeping, cursors
  and rendering are outside the model.
-/

attribute [local semireducible] Rat.add Rat.mul Rat.sub Rat.inv

/-- Digit test, modelling the regex class `\d` (ASCII `0`-`9`). -/
def isDigitC (c : Char) : Bool := 48 ≤ c.toNat && c.toNat ≤ 57

/-- Whitespace test, modelling the regex class `\s` / JS `trim` on the ASCII
whitespace actually reachable here (space, tab, LF, CR, VT, FF).  JS also
treats some Unicode space code points as `\s`; none occur in this model's
domain. -/
def isWsC (c : Char) : Bool :=
  c.toNat = 32 || c.toNat = 9 || c.toNat = 10 || c.toNat = 13 ||
  c.toNat = 11 || c.toNat = 12

/-- Numeric value of a digit character. -/
def digitVal (c : Char) : Nat := c.toNat - 48

/-- Value of a digit run, most significant first (semantics of `Number` /
`parseInt` on an all-digit string). -/
def digitsToNat (cs : List Char) : Nat :=
  cs.foldl (fun n c => 10 * n + digitVal c) 0

/-- JS `String.prototype.trim` (restricted to ASCII whitespace). -/
def trimChars (cs : List Char) : List Char :=
  ((cs.dropWhile (fun c => isWsC c)).reverse.dropWhile (fun c => isWsC c)).reverse

/-- Worker for `splitWs`: `acc` holds the characters of the current token,
reversed. -/
def splitWsAux : List Char → List Char → List (List Char)
  | [], acc => if acc.isEmpty then [] else [acc.reverse]
  | c :: rest, acc =>
    if isWsC c then
      if acc.isEmpty then splitWsAux rest []
      else acc.reverse :: splitWsAux rest []
    else splitWsAux rest (c :: acc)

/-- JS `str.split(/\s+/)` as used in `parseDaySchedule`: the receiver is
always the result of `trim()`, on which the split is exactly "the maximal
runs of non-whitespace characters". -/
def splitWs (cs : List Char) : List (List Char) := splitWsAux cs []

/-- JS `Array.prototype.join(' ')` at character level. -/
def joinSpace : List (List Char) → List Char
  | [] => []
  | [t] => t
  | t :: rest => t ++ ' ' :: joinSpace rest

/-- JS `n.toString().padStart(2, '0')` for a natural number. -/
def pad2 (n : Nat) : String :=
  if n < 10 then "0" ++ Nat.repr n else Nat.repr n

/-! ## Domain model (`src/models/types.ts`)

`Transition.id` is the optional stable surface identifier (`id?: string`)
used by `src/models/schedule.ts` (which reads `transition.id` and fills it
in when absent) and by the UI to track a point across re-sorts. -/

structure Transition where
  id : Option String
  time : String
  temperature : Rat
deriving DecidableEq, Repr

structure DaySchedule where
  transitions : List Transition
deriving DecidableEq, Repr

/-- Modelled from the spec: `compareTime` lives in `src/utils/time.ts`,
which is imported by `src/models/schedule.ts` but absent from the source
snapshot.  Per the spec, sorting is a "stable chronological sort by
time-of-day" of `"HH:MM"` strings, so `compareTime a b` is the difference
of the two times' minutes-since-midnight.  A string not of the shape
`DD:DD` maps to 0 minutes (in JS it would yield `NaN`, which makes the
comparator useless; no claim quantifies over such times). -/
def timeToMinutes (t : String) : Int :=
  match t.data with
  | [h1, h2, c, m1, m2] =>
    if isDigitC h1 && isDigitC h2 && c = ':' && isDigitC m1 && isDigitC m2 then
      ((10 * digitVal h1 + digitVal h2) * 60 + (10 * digitVal m1 + digitVal m2) : Int)
    else 0
  | _ => 0

/-- Modelled from the spec (see `timeToMinutes`). -/
def compareTime (a b : String) : Int := timeToMinutes a - timeToMinutes b

/-- The "comes before or ties" relation induced by the comparator
`(a, b) => compareTime(a.time, b.time)`. -/
def transLE (a b : Transition) : Prop := compareTime a.time b.time ≤ 0

instance : DecidableRel transLE := fun a b => by
  unfold transLE; infer_instance

instance : IsTotal Transition transLE :=
  ⟨fun a b => by unfold transLE compareTime; omega⟩

instance : IsTrans Transition transLE :=
  ⟨fun a b c => by unfold transLE compareTime; omega⟩

/-- `sortTransitions` (`schedule.ts` 512-514): `[...transitions].sort((a, b)
=> compareTime(a.time, b.time))`.  JS `Array.prototype.sort` with a
comparator is a stable sort ordered by the comparator; `insertionSort` over
`transLE` is stable with the same order. -/
def sortTransitions (ts : List Transition) : List Transition :=
  List.insertionSort transLE ts

/-- `generateTransitionId` (`schedule.ts` 332-334): returns
`` `t-${Date.now()}-${++transitionIdCounter}` ``.  `Date.now()` is
environment input; the model keeps the session counter, which is what makes
ids unique within a session. -/
def generateTransitionId (c : Nat) : String × Nat :=
  ("t-" ++ Nat.repr (c + 1), c + 1)

/-- JS `transition.id || generateTransitionId()`: `undefined` and the empty
string are falsy. -/
def idOrGenerate (i : Option String) (c : Nat) : String × Nat :=
  match i with
  | some s => if s = "" then generateTransitionId c else (s, c)
  | none => generateTransitionId c

/-- Worker for `removeDuplicateTransitions`; `seen` is the set of times
already kept. -/
def removeDupAux (seen : List String) (c : Nat) :
    List Transition → List Transition × Nat
  | [] => ([], c)
  | t :: rest =>
    if t.time ∈ seen then removeDupAux seen c rest
    else
      let (tid, c1) := idOrGenerate t.id c
      let (res, c2) := removeDupAux (t.time :: seen) c1 rest
      (⟨some tid, t.time, t.temperature⟩ :: res, c2)

/-- `removeDuplicateTransitions` (`schedule.ts` 539-556): keeps the first
occurrence of each time, rebuilding each kept transition with its id (or a
fresh one). -/
def removeDuplicateTransitions (ts : List Transition) (c : Nat) :
    List Transition × Nat :=
  removeDupAux [] c ts

/-- `createEmptyDaySchedule` (`schedule.ts` 460-466). -/
def createEmptyDaySchedule (c : Nat) : DaySchedule × Nat :=
  let (tid, c1) := generateTransitionId c
  (⟨[⟨some tid, "00:00", 20⟩]⟩, c1)

/-- `ensureMidnightTransition` (`schedule.ts` 490-504): prepend a default
`00:00/20` transition when no `00:00` entry exists, then sort. -/
def ensureMidnightTransition (sched : DaySchedule) (c : Nat) :
    DaySchedule × Nat :=
  let transitions := sched.transitions
  let hasMidnight := transitions.any (fun t => t.time = "00:00")
  if hasMidnight then (⟨sortTransitions transitions⟩, c)
  else
    let (tid, c1) := generateTransitionId c
    (⟨sortTransitions (⟨some tid, "00:00", 20⟩ :: transitions)⟩, c1)

/-- The numeric part of the token regex, `\d+(?:\.\d+)?`, together with the
value `parseFloat` gives it.  On strings of this shape `parseFloat` is
exactly integer-part plus fraction-digits over a power of ten (every such
value of the magnitudes reached here is handled exactly by the claims'
domain, which is quantized to halves). -/
def parseNumber (cs : List Char) : Option Rat :=
  let intPart := cs.takeWhile (fun c => isDigitC c)
  let rest := cs.dropWhile (fun c => isDigitC c)
  if intPart.isEmpty then none
  else
    match rest with
    | [] => some (digitsToNat intPart : Rat)
    | '.' :: frac =>
      if frac.isEmpty || !(frac.all (fun c => isDigitC c)) then none
      else some ((digitsToNat intPart : Rat) +
        (digitsToNat frac : Rat) / ((10 : Rat) ^ frac.length))
    | _ => none

/-- The token regex of `parseDaySchedule` (`schedule.ts` 367):
`^(\d{2}:\d{2})\/(\d+(?:\.\d+)?)$`, returning the captured time string and
the parsed temperature. -/
def matchTransitionToken (tok : List Char) : Option (String × Rat) :=
  match tok with
  | h1 :: h2 :: ':' :: m1 :: m2 :: '/' :: rest =>
    if isDigitC h1 && isDigitC h2 && isDigitC m1 && isDigitC m2 then
      match parseNumber rest with
      | some q => some (String.mk [h1, h2, ':', m1, m2], q)
      | none => none
    else none
  | _ => none

/-- The token loop of `parseDaySchedule` (`schedule.ts` 365-377): malformed
tokens are skipped (with a console warning), valid ones become transitions
with fresh ids. -/
def parseTokens (c : Nat) : List (List Char) → List Transition × Nat
  | [] => ([], c)
  | tok :: rest =>
    match matchTransitionToken tok with
    | none => parseTokens c rest
    | some (time, temp) =>
      let (tid, c1) := generateTransitionId c
      let (res, c2) := parseTokens c1 rest
      (⟨some tid, time, temp⟩ :: res, c2)

/-- `parseDaySchedule` (`schedule.ts` 353-394).  The `try`/`catch` cannot
fire in the model (all operations are total), matching the fact that none
of the calls inside the `try` throws on a string input. -/
def parseDaySchedule (s : String) (c : Nat) : DaySchedule × Nat :=
  let trimmed := trimChars s.data
  if trimmed.isEmpty then createEmptyDaySchedule c
  else
    let parts := splitWs trimmed
    let (transitions, c1) := parseTokens c parts
    if transitions.isEmpty then createEmptyDaySchedule c1
    else
      let (dedup, c2) := removeDuplicateTransitions transitions c1
      ensureMidnightTransition ⟨dedup⟩ c2

/-- JS `Math.floor` on a rational (`Rat.floor` is kernel-computable, unlike
the `FloorRing` projection). -/
def jsFloor (q : Rat) : Int := Rat.floor q

/-- JS `Math.ceil` on a rational: `-⌊-q⌋`. -/
def jsCeil (q : Rat) : Int := -(Rat.floor (-q))

/-- JS `Math.round` on a rational: half-up, i.e. `⌊q + 1/2⌋`. -/
def jsRound (q : Rat) : Int := Rat.floor (q + 1/2)

/-- The temperature formatting of `serializeDaySchedule` (`schedule.ts`
411-414): `toFixed(0)` when `t % 1 === 0`, else `toFixed(1)`.  Exact for the
non-negative half-integral temperatures the schedule domain holds; for other
rationals it chooses round-half-up on the first decimal (JS `toFixed` on
binary doubles can differ there, but no claim reaches such values). -/
def formatTemp (q : Rat) : String :=
  if q.den = 1 then Nat.repr q.num.toNat
  else Nat.repr (jsFloor q).toNat ++ "." ++ Nat.repr (jsRound ((q - jsFloor q) * 10)).toNat

/-- `serializeDaySchedule` (`schedule.ts` 402-419): dedup, sort, render each
transition as `time/temp`, join with single spaces. -/
def serializeDaySchedule (sched : DaySchedule) (c : Nat) : String × Nat :=
  let (dedup, c1) := removeDuplicateTransitions sched.transitions c
  let sorted := sortTransitions dedup
  let parts := sorted.map (fun t => t.time.data ++ '/' :: (formatTemp t.temperature).data)
  (String.mk (joinSpace parts), c1)

/-! ## Graph view component (`part_003` lines 457-1449)

Constants from the component: `DRAG_THRESHOLD = 5`, `CHART_PADDING =
{top: 20, right: 20, bottom: 40, left: 50}`, `TEMP_PADDING = 5`,
`TEMP_ABSOLUTE_MIN = 4`, `TEMP_ABSOLUTE_MAX = 35`, `VIEWBOX_WIDTH = 800`,
`VIEWBOX_HEIGHT = 350`. -/

/-- `getTempRange` (`part_003` 740-764), with the component's read of
`getCurrentDaySchedule()` made an explicit argument (`none` models a null
current day schedule). -/
def getTempRange (ds : Option DaySchedule) : Rat × Rat :=
  match ds with
  | none => (15, 25)
  | some d =>
    match d.transitions with
    | [] => (15, 25)
    | t0 :: rest =>
      let minTemp := (rest.map (fun t => t.temperature)).foldl min t0.temperature
      let maxTemp := (rest.map (fun t => t.temperature)).foldl max t0.temperature
      let rangeMin := max 4 ((jsFloor (minTemp - 5) : Rat))
      let rangeMax := min 35 ((jsCeil (maxTemp + 5) : Rat))
      let range := rangeMax - rangeMin
      if range < 10 then
        let midpoint := (rangeMin + rangeMax) / 2
        (max 4 ((jsFloor (midpoint - 5) : Rat)), min 35 ((jsCeil (midpoint + 5) : Rat)))
      else (rangeMin, rangeMax)

/-- `xToHour` (`part_003` 789-793). -/
def xToHour (x width : Rat) : Rat :=
  let chartWidth := width - 50 - 20
  let relX := x - 50
  max 0 (min 24 ((relX / chartWidth) * 24))

/-- `yToTemp` (`part_003` 795-804); depends on the current day schedule via
`getTempRange`. -/
def yToTemp (ds : Option DaySchedule) (y height : Rat) : Rat :=
  let mm := getTempRange ds
  let chartHeight := height - 20 - 40
  let relY := y - 20
  let normalized := 1 - relY / chartHeight
  let temp := mm.1 + normalized * (mm.2 - mm.1)
  let rounded := (jsRound (temp * 2) : Rat) / 2
  max 4 (min 35 rounded)

/-- `timeToHours` (`part_003` 806-809): `split(':')` and `Number`; exact on
`"HH:MM"` strings, 0 on anything else (JS would produce `NaN`). -/
def timeToHours (t : String) : Rat :=
  match t.data with
  | [h1, h2, c, m1, m2] =>
    if isDigitC h1 && isDigitC h2 && c = ':' && isDigitC m1 && isDigitC m2 then
      (10 * digitVal h1 + digitVal h2 : Rat) +
        (10 * digitVal m1 + digitVal m2 : Rat) / 60
    else 0
  | _ => 0

/-- `hoursToTime` (`part_003` 811-815): floor to whole hours, round the
remainder to minutes, zero-pad both. -/
def hoursToTime (hours : Rat) : String :=
  let h := jsFloor hours
  let m := jsRound ((hours - h) * 60)
  pad2 h.toNat ++ ":" ++ pad2 m.toNat

/-- The payload of a `schedule-changed` event (`detail.day` is always the
component's `selectedDay` and is omitted; `save = true` is the committed
event, `save = false` the preview). -/
structure ScheduleEvent where
  transitions : List Transition
  save : Bool
deriving DecidableEq, Repr

/-- `dispatchTransitionUpdate` (`part_003` 992-1006): sorts, then emits a
single `schedule-changed` event. -/
def dispatchTransitionUpdate (ts : List Transition) (save : Bool) :
    List ScheduleEvent :=
  [⟨sortTransitions ts, save⟩]

/-- The component state touched by the gesture handlers (`part_003`
697-716).  `disabled` is a host-controlled property the handlers read;
`draggingPoint`, `dragStartX/Y`, `isDragging` are the gesture fields.
Pixel client coordinates are `Int` (fractional client coordinates change
nothing: the only consumer is the threshold comparison, which is modelled
on squared distances). -/
structure GestureState where
  disabled : Bool
  draggingPoint : Option Nat
  dragStartX : Int
  dragStartY : Int
  isDragging : Bool
deriving DecidableEq, Repr

/-- The Idle state: no active drag. -/
def initialGestureState : GestureState :=
  ⟨false, none, 0, 0, false⟩

/-- `distance < DRAG_THRESHOLD` (`part_003` 881-885), squared on both sides:
`Math.sqrt(dx*dx+dy*dy) < 5  ↔  dx*dx+dy*dy < 25`. -/
def belowDragThreshold (dx dy : Int) : Bool :=
  dx * dx + dy * dy < 25

/-- Environment data delivered with a move event: the pointer's client
coordinates, the SVG-plane coordinates produced by `screenToSVGCoords`
(a DOM primitive, hence an input), whether `.chart-svg` was found, and the
current day schedule the component would read from its `schedule` property
(`none` when the host has no schedule for the selected day). -/
structure MoveInput where
  clientX : Int
  clientY : Int
  svgOk : Bool
  svgX : Rat
  svgY : Rat
  sched : Option DaySchedule
deriving Repr

/-- `handlePointMouseDown` (`part_003` 817-830): arm the gesture (listener
and cursor bookkeeping is outside the model). -/
def handlePointMouseDown (s : GestureState) (index : Nat) (cx cy : Int) :
    GestureState :=
  if s.disabled then s
  else { s with draggingPoint := some index, dragStartX := cx,
                dragStartY := cy, isDragging := false }

/-- `handlePointTouchStart` (`part_003` 832-847): same arming logic for the
first touch point (registers `touchend` and `touchcancel` to the same
`handleTouchEnd` handler). -/
def handlePointTouchStart (s : GestureState) (index : Nat) (cx cy : Int) :
    GestureState :=
  if s.disabled then s
  else { s with draggingPoint := some index, dragStartX := cx,
                dragStartY := cy, isDragging := false }

/-- `handleMouseMove` (`part_003` 877-916).  Returns the successor state and
the emitted events. -/
def handleMouseMove (s : GestureState) (inp : MoveInput) :
    GestureState × List ScheduleEvent :=
  match s.draggingPoint with
  | none => (s, [])
  | some i =>
    if s.disabled then (s, [])
    else if !s.isDragging &&
        belowDragThreshold (inp.clientX - s.dragStartX) (inp.clientY - s.dragStartY) then
      (s, [])
    else
      let s1 := { s with isDragging := true }
      if !inp.svgOk then (s1, [])
      else
        let hours := xToHour inp.svgX 800
        let temp := yToTemp inp.sched inp.svgY 350
        match inp.sched with
        | none => (s1, [])
        | some d =>
          let transitions := d.transitions
          let isFirstPoint := i = 0
          let newTime :=
            if isFirstPoint then "00:00"
            else hoursToTime ((jsRound (hours * 4) : Rat) / 4)
          let transitions2 := transitions.set i ⟨none, newTime, temp⟩
          (s1, dispatchTransitionUpdate transitions2 false)

/-- `handleTouchMove` (`part_003` 933-975): byte-for-byte the same logic as
`handleMouseMove` on the first touch point. -/
def handleTouchMove (s : GestureState) (inp : MoveInput) :
    GestureState × List ScheduleEvent :=
  match s.draggingPoint with
  | none => (s, [])
  | some i =>
    if s.disabled then (s, [])
    else if !s.isDragging &&
        belowDragThreshold (inp.clientX - s.dragStartX) (inp.clientY - s.dragStartY) then
      (s, [])
    else
      let s1 := { s with isDragging := true }
      if !inp.svgOk then (s1, [])
      else
        let hours := xToHour inp.svgX 800
        let temp := yToTemp inp.sched inp.svgY 350
        match inp.sched with
        | none => (s1, [])
        | some d =>
          let transitions := d.transitions
          let isFirstPoint := i = 0
          let newTime :=
            if isFirstPoint then "00:00"
            else hoursToTime ((jsRound (hours * 4) : Rat) / 4)
          let transitions2 := transitions.set i ⟨none, newTime, temp⟩
          (s1, dispatchTransitionUpdate transitions2 false)

/-- `handleMouseUp` (`part_003` 918-931): commit (with `save = true`) only
when a drag was in progress, then reset to Idle. -/
def handleMouseUp (s : GestureState) (daySchedule : Option DaySchedule) :
    GestureState × List ScheduleEvent :=
  let evs :=
    if s.draggingPoint.isSome && s.isDragging then
      match daySchedule with
      | some d => dispatchTransitionUpdate d.transitions true
      | none => []
    else []
  ({ s with draggingPoint := none, isDragging := false }, evs)

/-- `handleTouchEnd` (`part_003` 977-990): same commit-then-reset logic as
`handleMouseUp`; it is the handler registered for both `touchend` and
`touchcancel`. -/
def handleTouchEnd (s : GestureState) (daySchedule : Option DaySchedule) :
    GestureState × List ScheduleEvent :=
  let evs :=
    if s.draggingPoint.isSome && s.isDragging then
      match daySchedule with
      | some d => dispatchTransitionUpdate d.transitions true
      | none => []
    else []
  ({ s with draggingPoint := none, isDragging := false }, evs)

/-- Input events consumed by the gesture machine.  Move/up events carry the
environment data the handlers read at that moment (the current day schedule
is a property owned by the host, which applies previews back onto it). -/
inductive GestureEvent where
  | mouseDown (index : Nat) (cx cy : Int)
  | mouseMove (inp : MoveInput)
  | mouseUp (sched : Option DaySchedule)
  | touchStartEvt (index : Nat) (cx cy : Int)
  | touchMoveEvt (inp : MoveInput)
  | touchEndEvt (sched : Option DaySchedule)
  | touchCancelEvt (sched : Option DaySchedule)

/-- One step of the gesture machine: which handler the DOM invokes for each
event.  `touchcancel` is wired to `handleTouchEnd` (`part_003` 846 and
989). -/
def gestureStep (s : GestureState) : GestureEvent → GestureState × List ScheduleEvent
  | .mouseDown i cx cy => (handlePointMouseDown s i cx cy, [])
  | .mouseMove inp => handleMouseMove s inp
  | .mouseUp sched => handleMouseUp s sched
  | .touchStartEvt i cx cy => (handlePointTouchStart s i cx cy, [])
  | .touchMoveEvt inp => handleTouchMove s inp
  | .touchEndEvt sched => handleTouchEnd s sched
  | .touchCancelEvt sched => handleTouchEnd s sched

/-- Run the machine over an event trace, collecting every emitted
`schedule-changed` event in order. -/
def runGesture (s : GestureState) : List GestureEvent → GestureState × List ScheduleEvent
  | [] => (s, [])
  | e :: rest =>
    let p := gestureStep s e
    let q := runGesture p.1 rest
    (q.1, p.2 ++ q.2)

/-- `addTransition` of the graph view (`part_003` 1008-1053).  Takes the
component's `disabled` flag and the current day schedule; returns the
emitted events (the component never mutates the schedule in place — the
host owns it and reacts to the events). -/
def addTransition (disabled : Bool) (daySchedule : Option DaySchedule) :
    List ScheduleEvent :=
  if disabled then []
  else
    match daySchedule with
    | none => []
    | some d =>
      let transitions := d.transitions
      if 6 ≤ transitions.length then []
      else
        let p :=
          if 1 < transitions.length then
            let sorted := sortTransitions transitions
            let dummy : Transition := ⟨none, "", 0⟩
            let mg := (List.range (sorted.length - 1)).foldl
              (fun (acc : Rat × Nat) i =>
                let gap := timeToHours (sorted.getD (i + 1) dummy).time -
                  timeToHours (sorted.getD i dummy).time
                if acc.1 < gap then (gap, i) else acc) (0, 0)
            let maxGapIndex := mg.2
            let hours1 := timeToHours (sorted.getD maxGapIndex dummy).time
            let hours2 := timeToHours (sorted.getD (maxGapIndex + 1) dummy).time
            let midHours := (hours1 + hours2) / 2
            (hoursToTime midHours,
              (jsRound (((sorted.getD maxGapIndex dummy).temperature +
                (sorted.getD (maxGapIndex + 1) dummy).temperature) / 2) : Rat))
          else ("12:00", 20)
        let newTransition : Transition := ⟨none, p.1, p.2⟩
        dispatchTransitionUpdate (transitions ++ [newTransition]) true

/-! ## Spec-side definitions

Used only to state claims, never inside the embedded code above. -/

/-- The observable content of a transition for round-trip claims: its
`(time, temperature)` pair (ids are session-local UI bookkeeping). -/
def transPair (t : Transition) : String × Rat := (t.time, t.temperature)

/-- A time string of the shape the data model prescribes syntactically:
`\d{2}:\d{2}` (exactly what the token regex of the codec accepts). -/
def isShapedTime (t : String) : Bool :=
  match t.data with
  | [h1, h2, c, m1, m2] =>
    isDigitC h1 && isDigitC h2 && c = ':' && isDigitC m1 && isDigitC m2
  | _ => false

/-- A shaped time whose minute field is a real minute count (< 60), so that
minutes-since-midnight determines the string uniquely. -/
def isShapedTimeMM (t : String) : Bool :=
  match t.data with
  | [h1, h2, c, m1, m2] =>
    isDigitC h1 && isDigitC h2 && c = ':' && isDigitC m1 && isDigitC m2 &&
      10 * digitVal m1 + digitVal m2 < 60
  | _ => false

/-- The spec's time-of-day domain `[00:00, 23:59]`: a shaped time with a
valid hour (< 24) and minute (< 60) field. -/
def isValidTimeOfDay (t : String) : Bool :=
  match t.data with
  | [h1, h2, c, m1, m2] =>
    isDigitC h1 && isDigitC h2 && c = ':' && isDigitC m1 && isDigitC m2 &&
      10 * digitVal h1 + digitVal h2 < 24 && 10 * digitVal m1 + digitVal m2 < 60
  | _ => false

/-- The selected day's minimum transition temperature, as `getTempRange`
computes it (`Math.min(...temps)` over a non-empty day `t0 :: rest`). -/
def dayMinTemp (t0 : Transition) (rest : List Transition) : Rat :=
  (rest.map (fun t => t.temperature)).foldl min t0.temperature

/-- The selected day's maximum transition temperature (`Math.max(...temps)`
over a non-empty day `t0 :: rest`). -/
def dayMaxTemp (t0 : Transition) (rest : List Transition) : Rat :=
  (rest.map (fun t => t.temperature)).foldl max t0.temperature

/-- The low edge of the padded-and-clamped candidate range:
`Math.max(4, Math.floor(minTemp - 5))`. -/
def paddedLo (t0 : Transition) (rest : List Transition) : Rat :=
  max 4 ((jsFloor (dayMinTemp t0 rest - 5) : Rat))

/-- The high edge of the padded-and-clamped candidate range:
`Math.min(35, Math.ceil(maxTemp + 5))`. -/
def paddedHi (t0 : Transition) (rest : List Transition) : Rat :=
  min 35 ((jsCeil (dayMaxTemp t0 rest + 5) : Rat))

/-- The normalization pass exactly as `parseDaySchedule` applies it
(`schedule.ts` 384-389): `removeDuplicateTransitions`, then
`ensureMidnightTransition` (which itself sorts). -/
def normalizePass (ts : List Transition) (c : Nat) : DaySchedule × Nat :=
  let p := removeDuplicateTransitions ts c
  ensureMidnightTransition ⟨p.1⟩ p.2

/-- A temperature the data model allows: in `[4, 35]`, quantized to 0.5
(i.e. equal to `n/2` for a natural `8 ≤ n ≤ 70`). -/
def isHalfStepTemp (q : Rat) : Prop :=
  ∃ n : Nat, n < 71 ∧ 8 ≤ n ∧ q = (n : Rat) / 2

/-! ## Bridge lemmas -/

theorem jsFloor_eq (q : Rat) : jsFloor q = ⌊q⌋ := by
  rw [jsFloor, Rat.floor_def, Rat.floor_def']

theorem jsCeil_eq (q : Rat) : jsCeil q = ⌈q⌉ := by
  have h : jsFloor (-q) = ⌊-q⌋ := jsFloor_eq (-q)
  rw [jsFloor] at h
  rw [jsCeil, h, Int.floor_neg, neg_neg]

theorem jsRound_eq (q : Rat) : jsRound q = round q := by
  have h := jsFloor_eq (q + 1/2)
  rw [jsRound, ← jsFloor, h, round_eq]

/-! ## Claim C9 -/

/-- C9: for every day schedule already holding 6 transitions, the graph
view's add-transition operation is a no-op — no `schedule-changed` event
(neither preview nor committed) is emitted, so the host-owned schedule is
unchanged. -/
theorem addTransition_at_cap_is_noop (disabled : Bool) (d : DaySchedule)
    (h : 6 ≤ d.transitions.length) : addTransition disabled (some d) = [] := by
  cases disabled <;> simp [addTransition, h]

/-- Witness for `addTransition_at_cap_is_noop` at a concrete 6-transition
day. -/
theorem addTransition_at_cap_is_noop_witness :
    6 ≤ (DaySchedule.mk
      [⟨none, "00:00", 20⟩, ⟨none, "04:00", 20⟩, ⟨none, "08:00", 20⟩,
       ⟨none, "12:00", 20⟩, ⟨none, "16:00", 20⟩, ⟨none, "20:00", 20⟩]).transitions.length ∧
    addTransition false (some (DaySchedule.mk
      [⟨none, "00:00", 20⟩, ⟨none, "04:00", 20⟩, ⟨none, "08:00", 20⟩,
       ⟨none, "12:00", 20⟩, ⟨none, "16:00", 20⟩, ⟨none, "20:00", 20⟩])) = [] :=
  ⟨by decide, addTransition_at_cap_is_noop false _ (by decide)⟩

/-! ## Claim C10 -/

/-- C10: at an SVG x-coordinate at the right edge of the plot (x = 780,
and likewise any larger x), `xToHour` clamps the hour to 24, and a drag
move on a non-anchor transition emits a preview containing a transition
whose time string is "24:00" — outside the valid time-of-day domain
[00:00, 23:59]. -/
theorem drag_right_edge_emits_invalid_time :
    xToHour 780 800 = 24 ∧
    xToHour 900 800 = 24 ∧
    (handleMouseMove ⟨false, some 1, 0, 0, true⟩
        ⟨100, 100, true, 780, 165,
          some ⟨[⟨some "a", "00:00", 20⟩, ⟨some "b", "12:00", 20⟩]⟩⟩).2 =
      [⟨[⟨some "a", "00:00", 20⟩, ⟨none, "24:00", 20⟩], false⟩] ∧
    isValidTimeOfDay "24:00" = false := by
  refine ⟨by decide, by decide, by decide, by decide⟩

/-! ## Claim C4 -/

/-- Counterexample to C4: a touch drag that crossed the 5px threshold and is
then terminated by `touchcancel` DOES emit a committed (`save = true`)
event, because `touchcancel` is registered to the same `handleTouchEnd`
handler as `touchend` (`part_003` lines 846 and 989), which commits whenever
`isDragging` is set.  The trace below arms on point 1 of
`[00:00/20, 12:00/20]`, moves past the threshold (dragging the point to
14:00), and receives `touchcancel` while the host-applied preview is
current; the emitted `save` flags are `[false, true]` — the second event is
a commit, contradicting "no committed event is emitted". -/
theorem touchcancel_commits_after_threshold :
    ((runGesture initialGestureState
      [GestureEvent.touchStartEvt 1 0 0,
       GestureEvent.touchMoveEvt ⟨100, 100, true, 2855/6, 165,
         some ⟨[⟨some "a", "00:00", 20⟩, ⟨some "b", "12:00", 20⟩]⟩⟩,
       GestureEvent.touchCancelEvt
         (some ⟨[⟨some "a", "00:00", 20⟩, ⟨none, "14:00", 20⟩]⟩)]).2.map
      (fun e => e.save)) = [false, true] := by decide

/-- C4 as amended: `touchcancel` is handled exactly like `touchend` (the
same handler is registered for both): it commits the sorted current
schedule when the drag had crossed the threshold and emits nothing
otherwise; in both cases the gesture state returns to Idle (no dragging
point, `isDragging` cleared).  It does NOT behave like a below-threshold
release when the threshold was exceeded. -/
theorem touchcancel_equals_release (s : GestureState) (ds : Option DaySchedule) :
    gestureStep s (GestureEvent.touchCancelEvt ds) =
      gestureStep s (GestureEvent.touchEndEvt ds) ∧
    (gestureStep s (GestureEvent.touchCancelEvt ds)).1.draggingPoint = none ∧
    (gestureStep s (GestureEvent.touchCancelEvt ds)).1.isDragging = false := by
  refine ⟨rfl, ?_, ?_⟩ <;> simp [gestureStep, handleTouchEnd]

/-! ## Claim C3 -/

/-- Counterexample to C3: the commit emitted on release is NOT the full
normalization of the previewed transitions — it is only a sort.  Concrete
input: a mid-drag state over the previewed day
`[00:00/20 (id a), 00:00/18 (id-less, the dragged point parked at
midnight), 08:00/22 (id c)]`.  The committed event keeps both `00:00`
entries (three pairs), while the normalization pass that
`parseDaySchedule` applies (dedup + anchor + sort) yields two pairs — so
the committed schedule differs from full normalization even as a multiset
of (time, temperature) pairs. -/
theorem commit_keeps_duplicate_times :
    ((handleMouseUp ⟨false, some 1, 0, 0, true⟩
        (some ⟨[⟨some "a", "00:00", 20⟩, ⟨none, "00:00", 18⟩,
                ⟨some "c", "08:00", 22⟩]⟩)).2.map
      (fun e => (e.transitions.map transPair, e.save))) =
      [([("00:00", 20), ("00:00", 18), ("08:00", 22)], true)] ∧
    ((normalizePass [⟨some "a", "00:00", 20⟩, ⟨none, "00:00", 18⟩,
        ⟨some "c", "08:00", 22⟩] 0).1.transitions.map transPair) =
      [("00:00", 20), ("08:00", 22)] := by
  refine ⟨by decide, by decide⟩

/-- C3 as amended: when the threshold was exceeded (`isDragging` set), the
release commit emits exactly one event: the current day's transitions
sorted chronologically, flagged `save = true` — and nothing more.  Dedup
and anchor-insertion are not applied on this path (they happen only inside
`parseDaySchedule`). -/
theorem commit_emits_sorted_only (s : GestureState) (d : DaySchedule) (i : Nat)
    (h1 : s.draggingPoint = some i) (h2 : s.isDragging = true) :
    handleMouseUp s (some d) =
      ({ s with draggingPoint := none, isDragging := false },
        [⟨sortTransitions d.transitions, true⟩]) := by
  simp [handleMouseUp, h1, h2, dispatchTransitionUpdate]

/-- Witness for `commit_emits_sorted_only` at a concrete mid-drag state. -/
theorem commit_emits_sorted_only_witness :
    handleMouseUp ⟨false, some 1, 5, 5, true⟩
        (some ⟨[⟨some "b", "06:00", 22⟩, ⟨some "a", "00:00", 20⟩]⟩) =
      (⟨false, none, 5, 5, false⟩,
        [⟨[⟨some "a", "00:00", 20⟩, ⟨some "b", "06:00", 22⟩], true⟩]) := by
  have h := commit_emits_sorted_only ⟨false, some 1, 5, 5, true⟩
    ⟨[⟨some "b", "06:00", 22⟩, ⟨some "a", "00:00", 20⟩]⟩ 1 rfl rfl
  rw [h]; decide

/-! ## Claim C7, counterexample -/

/-- Counterexample to C7: for the non-empty day whose single transition sits
at the lower temperature bound (4°C), the padded-and-clamped range is
`[4, 9]` (span 5 < 10), so the claim requires the returned range to span at
least 10 degrees; but `getTempRange` returns `[4, 12]`, a span of 8 — the
recentering is cut short by the clamp at the absolute lower bound, so the
"spans at least 10 degrees" part of the claim is false. -/
theorem temp_range_narrow_at_lower_bound :
    getTempRange (some ⟨[⟨some "a", "00:00", 4⟩]⟩) = (4, 12) ∧
    min 35 ((jsCeil ((4 : Rat) + 5) : Rat)) -
      max 4 ((jsFloor ((4 : Rat) - 5) : Rat)) < 10 ∧
    (12 : Rat) - 4 < 10 := by
  refine ⟨by decide, by decide, by decide⟩

/-! ## Claim C8, counterexample -/

/-- Counterexample to C8: dragging the anchor (index 0) does pin its time to
"00:00" and leaves the other transitions alone, but the replacement object
built by `handleMouseMove` (`part_003` 910-913) carries no `id`, so a field
other than the temperature changes: the anchor's stable id is dropped.
Here the pointer position maps back to the anchor's own temperature
(20°C), yet the emitted anchor `⟨none, "00:00", 20⟩` differs from the
original `⟨some "a", "00:00", 20⟩` — refuting "only its temperature field
changes". -/
theorem anchor_drag_clears_id :
    (handleMouseMove ⟨false, some 0, 0, 0, true⟩
        ⟨100, 100, true, 300, 165,
          some ⟨[⟨some "a", "00:00", 20⟩, ⟨some "b", "12:00", 20⟩]⟩⟩).2 =
      [⟨[⟨none, "00:00", 20⟩, ⟨some "b", "12:00", 20⟩], false⟩] ∧
    (⟨none, "00:00", 20⟩ : Transition) ≠ ⟨some "a", "00:00", 20⟩ ∧
    (Transition.mk none "00:00" 20).temperature =
      (Transition.mk (some "a") "00:00" 20).temperature := by
  refine ⟨by decide, by decide, rfl⟩

/-! ## Claim C6, counterexample -/

/-- Counterexample to C6: the drag target is resolved by array index, not by
stable id.  Trace: press point 1 (id "b", 10:00/22) of
`[00:00/20 (a), 10:00/22 (b), 20:00/18 (c)]`; the first move drags it to
22:00, and the emitted (sorted) preview moves it to the last position.  The
host applies the preview, so the second move — same pointer position —
reads the reordered list and overwrites index 1, which is now transition
"c" (20:00/18): the second preview contains no transition with id "c"
anymore, although the transition pressed at gesture start was "b".  A move
therefore updated a different transition than the one pressed. -/
theorem second_move_retargets_other_transition :
    ((runGesture initialGestureState
      [GestureEvent.mouseDown 1 0 0,
       GestureEvent.mouseMove ⟨100, 100, true, 4315/6, 865/7,
         some ⟨[⟨some "a", "00:00", 20⟩, ⟨some "b", "10:00", 22⟩,
                ⟨some "c", "20:00", 18⟩]⟩⟩,
       GestureEvent.mouseMove ⟨100, 100, true, 4315/6, 865/7,
         some ⟨[⟨some "a", "00:00", 20⟩, ⟨some "c", "20:00", 18⟩,
                ⟨none, "22:00", 22⟩]⟩⟩]).2) =
      [⟨[⟨some "a", "00:00", 20⟩, ⟨some "c", "20:00", 18⟩,
         ⟨none, "22:00", 22⟩], false⟩,
       ⟨[⟨some "a", "00:00", 20⟩, ⟨none, "22:00", 22⟩,
         ⟨none, "22:00", 22⟩], false⟩] ∧
    (([⟨some "a", "00:00", 20⟩, ⟨some "b", "10:00", 22⟩,
       ⟨some "c", "20:00", 18⟩] : List Transition).getD 1 ⟨none, "", 0⟩).id =
      some "b" ∧
    (⟨some "c", "20:00", 18⟩ : Transition) ∈
      ([⟨some "a", "00:00", 20⟩, ⟨some "c", "20:00", 18⟩,
        ⟨none, "22:00", 22⟩] : List Transition) ∧
    (∀ t ∈ ([⟨some "a", "00:00", 20⟩, ⟨none, "22:00", 22⟩,
        ⟨none, "22:00", 22⟩] : List Transition), t.id ≠ some "c") := by
  refine ⟨by decide, by decide, by decide, by decide⟩

/-! ## Claim C5 -/

/-- Running a concatenated trace: states thread through, emissions
concatenate. -/
theorem runGesture_append (s : GestureState) (l1 l2 : List GestureEvent) :
    runGesture s (l1 ++ l2) =
      ((runGesture (runGesture s l1).1 l2).1,
        (runGesture s l1).2 ++ (runGesture (runGesture s l1).1 l2).2) := by
  induction l1 generalizing s with
  | nil => simp [runGesture]
  | cons e rest ih =>
    simp only [List.cons_append, runGesture]
    rw [show (rest.append l2) = rest ++ l2 from rfl, ih]
    simp [List.append_assoc]

/-- A move below the drag threshold leaves the armed state untouched and
emits nothing. -/
theorem handleMouseMove_below_threshold (i : Nat) (cx cy : Int) (m : MoveInput)
    (h : (m.clientX - cx) * (m.clientX - cx) +
      (m.clientY - cy) * (m.clientY - cy) < 25) :
    handleMouseMove ⟨false, some i, cx, cy, false⟩ m =
      (⟨false, some i, cx, cy, false⟩, []) := by
  simp [handleMouseMove, belowDragThreshold, h]

/-- Below-threshold moves keep the machine in the armed state. -/
theorem runGesture_moves_below_threshold (i : Nat) (cx cy : Int)
    (moves : List MoveInput)
    (h : ∀ m ∈ moves, (m.clientX - cx) * (m.clientX - cx) +
      (m.clientY - cy) * (m.clientY - cy) < 25) :
    runGesture ⟨false, some i, cx, cy, false⟩
        (moves.map GestureEvent.mouseMove) =
      (⟨false, some i, cx, cy, false⟩, []) := by
  induction moves with
  | nil => rfl
  | cons m rest ih =>
    have hm := h m (List.mem_cons_self _ _)
    have ih2 := ih (fun x hx => h x (List.mem_cons_of_mem _ hx))
    simp only [List.map_cons, runGesture, gestureStep,
      handleMouseMove_below_threshold i cx cy m hm, ih2, List.nil_append]

/-- C5: in a press-move-release gesture whose every move stays strictly
within 5px (squared distance < 25) of the press position, no committed
(`save = true`) event is ever emitted (in fact no event at all: the moves
stay below the threshold, and release without `isDragging` emits
nothing). -/
theorem below_threshold_never_commits (i : Nat) (cx cy : Int)
    (moves : List MoveInput) (endSched : Option DaySchedule)
    (h : ∀ m ∈ moves, (m.clientX - cx) * (m.clientX - cx) +
      (m.clientY - cy) * (m.clientY - cy) < 25) :
    ∀ ev ∈ (runGesture initialGestureState
      (GestureEvent.mouseDown i cx cy ::
        (moves.map GestureEvent.mouseMove ++ [GestureEvent.mouseUp endSched]))).2,
      ev.save = false := by
  intro ev hev
  rw [show runGesture initialGestureState
      (GestureEvent.mouseDown i cx cy ::
        (moves.map GestureEvent.mouseMove ++ [GestureEvent.mouseUp endSched])) =
      (⟨false, none, cx, cy, false⟩, []) from ?_] at hev
  · exact absurd hev (List.not_mem_nil ev)
  · have harm : gestureStep initialGestureState (GestureEvent.mouseDown i cx cy) =
        (⟨false, some i, cx, cy, false⟩, []) := rfl
    have happ := runGesture_append (⟨false, some i, cx, cy, false⟩)
      (moves.map GestureEvent.mouseMove) [GestureEvent.mouseUp endSched]
    simp only [runGesture, harm]
    rw [happ, runGesture_moves_below_threshold i cx cy moves h]
    cases endSched <;> rfl

/-- Witness for `below_threshold_never_commits`: a 3px-then-4px drag on a
point, released; its hypotheses hold by computation. -/
theorem below_threshold_never_commits_witness :
    (∀ m ∈ ([⟨3, 0, true, 400, 165, none⟩,
        ⟨0, 4, true, 400, 165, none⟩] : List MoveInput),
      (m.clientX - 0) * (m.clientX - 0) + (m.clientY - 0) * (m.clientY - 0) < 25) ∧
    (∀ ev ∈ (runGesture initialGestureState
      (GestureEvent.mouseDown 1 0 0 ::
        (([⟨3, 0, true, 400, 165, none⟩,
           ⟨0, 4, true, 400, 165, none⟩] : List MoveInput).map GestureEvent.mouseMove ++
          [GestureEvent.mouseUp none]))).2,
      ev.save = false) :=
  ⟨by decide, below_threshold_never_commits 1 0 0 _ none (by decide)⟩

/-! ## Claim C6, amended theorem -/

/-- C6 as amended: during a drag, a move event updates the transition at the
ARRAY POSITION recorded at press time (`transitions[draggingPoint] = ...`,
`part_003` 910), not a transition resolved by its stable identifier — and
the replacement entry carries no id at all.  Transitions at every other
position survive into the emitted preview unchanged; whether the
transition originally pressed survives depends on whether intermediate
previews reordered the list (see the counterexample, where it does not). -/
theorem move_updates_by_array_index (s : GestureState) (i : Nat)
    (inp : MoveInput) (d : DaySchedule)
    (h1 : s.draggingPoint = some i) (h2 : s.disabled = false)
    (h3 : s.isDragging = true) (h4 : inp.svgOk = true)
    (h5 : inp.sched = some d) :
    ∃ e : Transition, e.id = none ∧
      (i = 0 → e.time = "00:00") ∧
      e.temperature = yToTemp (some d) inp.svgY 350 ∧
      handleMouseMove s inp =
        ({ s with isDragging := true },
          [⟨sortTransitions (d.transitions.set i e), false⟩]) ∧
      ∀ j, j < d.transitions.length → j ≠ i →
        d.transitions.getD j ⟨none, "", 0⟩ ∈
          sortTransitions (d.transitions.set i e) := by
  refine ⟨⟨none,
    if i = 0 then "00:00"
    else hoursToTime ((jsRound ((xToHour inp.svgX 800) * 4) : Rat) / 4),
    yToTemp (some d) inp.svgY 350⟩, rfl, ?_, rfl, ?_, ?_⟩
  · intro h0; simp [h0]
  · simp [handleMouseMove, h1, h2, h3, h4, h5, dispatchTransitionUpdate]
  · intro j hj hne
    have hmem : d.transitions.getD j ⟨none, "", 0⟩ ∈
        d.transitions.set i ⟨none,
          if i = 0 then "00:00"
          else hoursToTime ((jsRound ((xToHour inp.svgX 800) * 4) : Rat) / 4),
          yToTemp (some d) inp.svgY 350⟩ := by
      have hjs : j < (d.transitions.set i ⟨none,
          if i = 0 then "00:00"
          else hoursToTime ((jsRound ((xToHour inp.svgX 800) * 4) : Rat) / 4),
          yToTemp (some d) inp.svgY 350⟩).length := by
        simpa [List.length_set] using hj
      rw [List.getD_eq_getElem _ _ hj]
      have hset := List.getElem_set_ne (Ne.symm hne) hjs
      rw [← hset]
      exact List.getElem_mem _
    exact ((List.perm_insertionSort transLE _).mem_iff).2 hmem

/-- Witness for `move_updates_by_array_index` at a concrete mid-drag
state. -/
theorem move_updates_by_array_index_witness :
    ∃ e : Transition, e.id = none ∧
      ((1 : Nat) = 0 → e.time = "00:00") ∧
      e.temperature = yToTemp
        (some ⟨[⟨some "a", "00:00", 20⟩, ⟨some "b", "12:00", 20⟩]⟩) 165 350 ∧
      handleMouseMove ⟨false, some 1, 0, 0, true⟩
          ⟨100, 100, true, 2855/6, 165,
            some ⟨[⟨some "a", "00:00", 20⟩, ⟨some "b", "12:00", 20⟩]⟩⟩ =
        (⟨false, some 1, 0, 0, true⟩,
          [⟨sortTransitions
            (([⟨some "a", "00:00", 20⟩, ⟨some "b", "12:00", 20⟩] :
              List Transition).set 1 e), false⟩]) ∧
      ∀ j, j < ([⟨some "a", "00:00", 20⟩, ⟨some "b", "12:00", 20⟩] :
          List Transition).length → j ≠ 1 →
        (([⟨some "a", "00:00", 20⟩, ⟨some "b", "12:00", 20⟩] :
          List Transition).getD j ⟨none, "", 0⟩) ∈
          sortTransitions (([⟨some "a", "00:00", 20⟩, ⟨some "b", "12:00", 20⟩] :
            List Transition).set 1 e) :=
  move_updates_by_array_index ⟨false, some 1, 0, 0, true⟩ 1
    ⟨100, 100, true, 2855/6, 165,
      some ⟨[⟨some "a", "00:00", 20⟩, ⟨some "b", "12:00", 20⟩]⟩⟩
    ⟨[⟨some "a", "00:00", 20⟩, ⟨some "b", "12:00", 20⟩]⟩
    rfl rfl rfl rfl rfl

/-! ## Claim C8, amended theorem -/

/-- C8 as amended: while dragging the anchor (index 0), the emitted
preview's replacement entry has time "00:00" whatever the pointer's
x-coordinate is (the right-hand side below does not mention `inp.svgX`),
its temperature is taken from the pointer's y-coordinate, and every other
transition of the day survives into the preview unchanged.  However the
replacement entry carries no id — the anchor's stable identifier is
dropped, so temperature is not the only field that changes (see the
counterexample). -/
theorem anchor_drag_pins_time (s : GestureState) (inp : MoveInput)
    (t0 : Transition) (rest : List Transition)
    (h1 : s.draggingPoint = some 0) (h2 : s.disabled = false)
    (h3 : s.isDragging = true) (h4 : inp.svgOk = true)
    (h5 : inp.sched = some ⟨t0 :: rest⟩) :
    handleMouseMove s inp =
      ({ s with isDragging := true },
        [⟨sortTransitions
          (⟨none, "00:00", yToTemp (some ⟨t0 :: rest⟩) inp.svgY 350⟩ :: rest),
          false⟩]) ∧
    ∀ t ∈ rest, t ∈ sortTransitions
      (⟨none, "00:00", yToTemp (some ⟨t0 :: rest⟩) inp.svgY 350⟩ :: rest) := by
  constructor
  · simp [handleMouseMove, h1, h2, h3, h4, h5, dispatchTransitionUpdate]
  · intro t ht
    exact ((List.perm_insertionSort transLE _).mem_iff).2
      (List.mem_cons_of_mem _ ht)

/-- Witness for `anchor_drag_pins_time` at a concrete anchor drag. -/
theorem anchor_drag_pins_time_witness :
    (handleMouseMove ⟨false, some 0, 0, 0, true⟩
        ⟨100, 100, true, 300, 165,
          some ⟨[⟨some "a", "00:00", 20⟩, ⟨some "b", "12:00", 20⟩]⟩⟩ =
      (⟨false, some 0, 0, 0, true⟩,
        [⟨sortTransitions
          (⟨none, "00:00", yToTemp
            (some ⟨[⟨some "a", "00:00", 20⟩, ⟨some "b", "12:00", 20⟩]⟩) 165 350⟩ ::
            [⟨some "b", "12:00", 20⟩]), false⟩])) ∧
    ∀ t ∈ ([⟨some "b", "12:00", 20⟩] : List Transition),
      t ∈ sortTransitions
        (⟨none, "00:00", yToTemp
          (some ⟨[⟨some "a", "00:00", 20⟩, ⟨some "b", "12:00", 20⟩]⟩) 165 350⟩ ::
          [⟨some "b", "12:00", 20⟩]) :=
  anchor_drag_pins_time ⟨false, some 0, 0, 0, true⟩
    ⟨100, 100, true, 300, 165,
      some ⟨[⟨some "a", "00:00", 20⟩, ⟨some "b", "12:00", 20⟩]⟩⟩
    ⟨some "a", "00:00", 20⟩ [⟨some "b", "12:00", 20⟩] rfl rfl rfl rfl rfl

/-! ## Claim C7, amended theorem -/

theorem jsFloor_le (q : Rat) : ((jsFloor q : Int) : Rat) ≤ q := by
  rw [jsFloor_eq]; exact Int.floor_le q

theorem lt_jsFloor_add_one (q : Rat) : q < ((jsFloor q : Int) : Rat) + 1 := by
  rw [jsFloor_eq]; exact Int.lt_floor_add_one q

theorem le_jsCeil (q : Rat) : q ≤ ((jsCeil q : Int) : Rat) := by
  rw [jsCeil_eq]; exact Int.le_ceil q

theorem jsCeil_lt_add_one (q : Rat) : ((jsCeil q : Int) : Rat) < q + 1 := by
  rw [jsCeil_eq]; exact Int.ceil_lt_add_one q

theorem foldl_min_le_init (a : Rat) (l : List Rat) : l.foldl min a ≤ a := by
  induction l generalizing a with
  | nil => exact le_refl a
  | cons x xs ih => exact le_trans (ih (min a x)) (min_le_left a x)

theorem le_foldl_max_init (a : Rat) (l : List Rat) : a ≤ l.foldl max a := by
  induction l generalizing a with
  | nil => exact le_refl a
  | cons x xs ih => exact le_trans (le_max_left a x) (ih (max a x))

theorem le_foldl_min (c a : Rat) (l : List Rat) (ha : c ≤ a)
    (hl : ∀ x ∈ l, c ≤ x) : c ≤ l.foldl min a := by
  induction l generalizing a with
  | nil => exact ha
  | cons x xs ih =>
    exact ih (min a x) (le_min ha (hl x (List.mem_cons_self _ _)))
      (fun y hy => hl y (List.mem_cons_of_mem _ hy))

theorem foldl_max_le (c a : Rat) (l : List Rat) (ha : a ≤ c)
    (hl : ∀ x ∈ l, x ≤ c) : l.foldl max a ≤ c := by
  induction l generalizing a with
  | nil => exact ha
  | cons x xs ih =>
    exact ih (max a x) (max_le ha (hl x (List.mem_cons_self _ _)))
      (fun y hy => hl y (List.mem_cons_of_mem _ hy))

/-- `getTempRange` on a non-empty day, written through the spec-side
abbreviations. -/
theorem getTempRange_cons (t0 : Transition) (rest : List Transition) :
    getTempRange (some ⟨t0 :: rest⟩) =
      if paddedHi t0 rest - paddedLo t0 rest < 10 then
        (max 4 ((jsFloor ((paddedLo t0 rest + paddedHi t0 rest) / 2 - 5) : Rat)),
          min 35 ((jsCeil ((paddedLo t0 rest + paddedHi t0 rest) / 2 + 5) : Rat)))
      else (paddedLo t0 rest, paddedHi t0 rest) := rfl

/-- C7 as amended: for every non-empty day schedule whose temperatures lie
in the domain [4,35], `getTempRange` returns the floor/ceil-rounded
padded-and-clamped range `(max(4,⌊min-5⌋), min(35,⌈max+5⌉))` whenever that
range already spans at least 10 degrees; the returned range always
satisfies `4 ≤ lo < hi ≤ 35`; and it spans at least 10 degrees UNLESS it is
pinned at an absolute bound (`lo = 4` or `hi = 35`): the recentering is
`(max(4,⌊mid-5⌋), min(35,⌈mid+5⌉))` around the midpoint, and the clamps can
cut its span below 10 near the domain edges (see the counterexample). -/
theorem getTempRange_characterization (d : DaySchedule)
    (t0 : Transition) (rest : List Transition)
    (hne : d.transitions = t0 :: rest)
    (hlo : ∀ t ∈ d.transitions, 4 ≤ t.temperature)
    (hhi : ∀ t ∈ d.transitions, t.temperature ≤ 35) :
    (10 ≤ paddedHi t0 rest - paddedLo t0 rest →
      getTempRange (some d) = (paddedLo t0 rest, paddedHi t0 rest)) ∧
    4 ≤ (getTempRange (some d)).1 ∧
    (getTempRange (some d)).2 ≤ 35 ∧
    (getTempRange (some d)).1 < (getTempRange (some d)).2 ∧
    (10 ≤ (getTempRange (some d)).2 - (getTempRange (some d)).1 ∨
      (getTempRange (some d)).1 = 4 ∨ (getTempRange (some d)).2 = 35) := by
  obtain ⟨ts⟩ := d
  simp only at hne
  subst hne
  have hlo0 : (4 : Rat) ≤ t0.temperature := hlo t0 (List.mem_cons_self _ _)
  have hhi0 : t0.temperature ≤ 35 := hhi t0 (List.mem_cons_self _ _)
  have hlorest : ∀ x ∈ rest.map (fun t => t.temperature), (4 : Rat) ≤ x := by
    intro x hx
    obtain ⟨t, ht, rfl⟩ := List.mem_map.1 hx
    exact hlo t (List.mem_cons_of_mem _ ht)
  have hhirest : ∀ x ∈ rest.map (fun t => t.temperature), x ≤ (35 : Rat) := by
    intro x hx
    obtain ⟨t, ht, rfl⟩ := List.mem_map.1 hx
    exact hhi t (List.mem_cons_of_mem _ ht)
  have hmin4 : (4 : Rat) ≤ dayMinTemp t0 rest := le_foldl_min 4 _ _ hlo0 hlorest
  have hmax35 : dayMaxTemp t0 rest ≤ 35 := foldl_max_le 35 _ _ hhi0 hhirest
  have hminmax : dayMinTemp t0 rest ≤ dayMaxTemp t0 rest :=
    le_trans (foldl_min_le_init _ _) (le_foldl_max_init _ _)
  have hmin35 : dayMinTemp t0 rest ≤ 35 := le_trans hminmax hmax35
  have hmax4 : (4 : Rat) ≤ dayMaxTemp t0 rest := le_trans hmin4 hminmax
  have hFle : ((jsFloor (dayMinTemp t0 rest - 5) : Int) : Rat) ≤ dayMinTemp t0 rest - 5 :=
    jsFloor_le _
  have hCge : dayMaxTemp t0 rest + 5 ≤ ((jsCeil (dayMaxTemp t0 rest + 5) : Int) : Rat) :=
    le_jsCeil _
  have hA4 : (4 : Rat) ≤ paddedLo t0 rest := le_max_left _ _
  have hB35 : paddedHi t0 rest ≤ 35 := min_le_left _ _
  have hA30 : paddedLo t0 rest ≤ 30 := by
    unfold paddedLo
    exact max_le (by norm_num) (by linarith)
  have hB9 : (9 : Rat) ≤ paddedHi t0 rest := by
    unfold paddedHi
    exact le_min (by norm_num) (by linarith)
  have hAB : paddedLo t0 rest ≤ paddedHi t0 rest := by
    unfold paddedLo paddedHi
    refine max_le (le_min (by norm_num) (by linarith)) (le_min (by linarith) (by linarith))
  rw [getTempRange_cons]
  by_cases hc : paddedHi t0 rest - paddedLo t0 rest < 10
  · rw [if_pos hc]
    have hmidlo : (13 : Rat) / 2 ≤ (paddedLo t0 rest + paddedHi t0 rest) / 2 := by linarith
    have hmidhi : (paddedLo t0 rest + paddedHi t0 rest) / 2 ≤ 65 / 2 := by linarith
    have hFm : ((jsFloor ((paddedLo t0 rest + paddedHi t0 rest) / 2 - 5) : Int) : Rat) ≤
        (paddedLo t0 rest + paddedHi t0 rest) / 2 - 5 := jsFloor_le _
    have hCm : (paddedLo t0 rest + paddedHi t0 rest) / 2 + 5 ≤
        ((jsCeil ((paddedLo t0 rest + paddedHi t0 rest) / 2 + 5) : Int) : Rat) := le_jsCeil _
    refine ⟨fun h10 => absurd h10 (not_le.2 hc), le_max_left _ _, min_le_left _ _, ?_, ?_⟩
    · exact max_lt (lt_min (by norm_num) (by linarith)) (lt_min (by linarith) (by linarith))
    · rcases max_choice 4 ((jsFloor ((paddedLo t0 rest + paddedHi t0 rest) / 2 - 5) : Int) : Rat)
        with h | h
      · right; left; exact h
      · rcases min_choice 35
            ((jsCeil ((paddedLo t0 rest + paddedHi t0 rest) / 2 + 5) : Int) : Rat) with h2 | h2
        · right; right; exact h2
        · left
          rw [h, h2]
          linarith
  · rw [if_neg hc]
    have h10 : (10 : Rat) ≤ paddedHi t0 rest - paddedLo t0 rest := le_of_not_lt hc
    exact ⟨fun _ => rfl, hA4, hB35, by linarith, Or.inl h10⟩

/-- Witness for `getTempRange_characterization` on the concrete day
`[00:00/18, 08:00/22]`, whose padded range `[13, 27]` is wide enough. -/
theorem getTempRange_characterization_witness :
    getTempRange (some ⟨[⟨some "a", "00:00", 18⟩, ⟨some "b", "08:00", 22⟩]⟩) = (13, 27) ∧
    (4 : Rat) ≤ 13 ∧ (27 : Rat) ≤ 35 ∧ (13 : Rat) < 27 := by
  have h := getTempRange_characterization
    ⟨[⟨some "a", "00:00", 18⟩, ⟨some "b", "08:00", 22⟩]⟩
    ⟨some "a", "00:00", 18⟩ [⟨some "b", "08:00", 22⟩] rfl (by decide) (by decide)
  have h2 := h.1 (by decide)
  rw [h2]
  refine ⟨by decide, by norm_num, by norm_num, by norm_num⟩

/-! ## Normalization-pass lemmas (claims C1 and C2) -/

/-- `sortTransitions` permutes its input. -/
theorem sortTransitions_perm (l : List Transition) :
    List.Perm (sortTransitions l) l :=
  List.perm_insertionSort transLE l

/-- `sortTransitions` output is `transLE`-sorted. -/
theorem sortTransitions_sorted (l : List Transition) :
    List.Pairwise transLE (sortTransitions l) :=
  List.sorted_insertionSort transLE l

/-- `sortTransitions` is the identity on already-sorted lists. -/
theorem sortTransitions_eq_self (l : List Transition)
    (h : List.Pairwise transLE l) : sortTransitions l = l :=
  List.Sorted.insertionSort_eq h

/-- Characterization of the dedup worker: the kept times are exactly the
input times not yet seen, and they are duplicate-free. -/
theorem removeDupAux_times (seen : List String) (c : Nat) (ts : List Transition) :
    ((removeDupAux seen c ts).1.map (fun t => t.time)).Nodup ∧
    ∀ x, (x ∈ (removeDupAux seen c ts).1.map (fun t => t.time) ↔
      (x ∈ ts.map (fun t => t.time) ∧ x ∉ seen)) := by
  induction ts generalizing seen c with
  | nil => simp [removeDupAux]
  | cons t rest ih =>
    by_cases hm : t.time ∈ seen
    · have heq : removeDupAux seen c (t :: rest) = removeDupAux seen c rest := by
        simp [removeDupAux, hm]
      rw [heq]
      obtain ⟨ihn, ihm⟩ := ih seen c
      refine ⟨ihn, fun x => ?_⟩
      rw [ihm x]
      constructor
      · rintro ⟨hx, hns⟩
        exact ⟨List.mem_cons_of_mem _ hx, hns⟩
      · rintro ⟨hx, hns⟩
        rcases List.mem_cons.1 hx with h | h
        · exact absurd (h ▸ hm) hns
        · exact ⟨h, hns⟩
    · have heq : (removeDupAux seen c (t :: rest)).1 =
          ⟨some (idOrGenerate t.id c).1, t.time, t.temperature⟩ ::
            (removeDupAux (t.time :: seen) (idOrGenerate t.id c).2 rest).1 := by
        simp [removeDupAux, hm]
      rw [heq]
      obtain ⟨ihn, ihm⟩ := ih (t.time :: seen) (idOrGenerate t.id c).2
      constructor
      · refine List.nodup_cons.2 ⟨?_, ihn⟩
        intro hmem
        exact ((ihm t.time).1 hmem).2 (List.mem_cons_self _ _)
      · intro x
        simp only [List.map_cons, List.mem_cons, ihm x, List.mem_cons, not_or]
        constructor
        · rintro (rfl | ⟨hx, hne, hns⟩)
          · exact ⟨Or.inl rfl, hm⟩
          · exact ⟨Or.inr hx, hns⟩
        · rintro ⟨rfl | hx, hns⟩
          · exact Or.inl rfl
          · by_cases hxt : x = t.time
            · exact Or.inl hxt
            · exact Or.inr ⟨hx, hxt, hns⟩

/-- Characters are determined by their numeric code. -/
theorem char_eq_of_toNat_eq (a b : Char) (h : a.toNat = b.toNat) : a = b := by
  exact_mod_cast Char.ofNat_toNat a ▸ Char.ofNat_toNat b ▸ congrArg Char.ofNat h

/-- Well-formed times (shape `\d\d:\d\d`, minutes < 60) are determined by
their minutes-since-midnight value. -/
theorem timeToMinutes_inj (a b : String) (ha : isShapedTimeMM a = true)
    (hb : isShapedTimeMM b = true)
    (h : timeToMinutes a = timeToMinutes b) : a = b := by
  rcases hda : a.data with _ | ⟨a1, _ | ⟨a2, _ | ⟨a3, _ | ⟨a4, _ | ⟨a5, _ | arest⟩⟩⟩⟩⟩ <;>
    simp [isShapedTimeMM, hda, isDigitC, digitVal] at ha
  rcases hdb : b.data with _ | ⟨b1, _ | ⟨b2, _ | ⟨b3, _ | ⟨b4, _ | ⟨b5, _ | brest⟩⟩⟩⟩⟩ <;>
    simp [isShapedTimeMM, hdb, isDigitC, digitVal] at hb
  obtain ⟨⟨⟨⟨⟨had1, had2⟩, hacol⟩, had4⟩, had5⟩, haM⟩ := ha
  obtain ⟨⟨⟨⟨⟨hbd1, hbd2⟩, hbcol⟩, hbd4⟩, hbd5⟩, hbM⟩ := hb
  have hva : timeToMinutes a =
      ((10 * digitVal a1 + digitVal a2) * 60 + (10 * digitVal a4 + digitVal a5) : Int) := by
    rw [hacol] at hda
    simp [timeToMinutes, hda, isDigitC, had1.1, had1.2, had2.1, had2.2,
      had4.1, had4.2, had5.1, had5.2]
  have hvb : timeToMinutes b =
      ((10 * digitVal b1 + digitVal b2) * 60 + (10 * digitVal b4 + digitVal b5) : Int) := by
    rw [hbcol] at hdb
    simp [timeToMinutes, hdb, isDigitC, hbd1.1, hbd1.2, hbd2.1, hbd2.2,
      hbd4.1, hbd4.2, hbd5.1, hbd5.2]
  rw [hva, hvb] at h
  simp [digitVal] at h haM hbM
  obtain ⟨had1a, had1b⟩ := had1
  obtain ⟨had2a, had2b⟩ := had2
  obtain ⟨hbd1a, hbd1b⟩ := hbd1
  obtain ⟨hbd2a, hbd2b⟩ := hbd2
  have e1 : a1 = b1 := char_eq_of_toNat_eq _ _ (by omega)
  have e2 : a2 = b2 := char_eq_of_toNat_eq _ _ (by omega)
  have e4 : a4 = b4 := char_eq_of_toNat_eq _ _ (by omega)
  have e5 : a5 = b5 := char_eq_of_toNat_eq _ _ (by omega)
  have hdat : a.data = b.data := by
    rw [hda, hdb, hacol, hbcol, e1, e2, e4, e5]
  cases a; cases b
  exact congrArg String.mk hdat

/-! ## Claim C2 -/

/-- Counterexample to C2: the normalization pass enforces NO 6-entry cap.
Feeding `parseDaySchedule` (whose tail is exactly the normalization pass)
seven distinct-time transitions yields a 7-entry schedule, contradicting
"at most 6 entries".  (The spec itself elsewhere states the cap is an
add-time precondition, not part of the Normalizer.) -/
theorem normalize_seven_entries_exceed_cap :
    (parseDaySchedule
      "00:00/20 01:00/20 02:00/20 03:00/20 04:00/20 05:00/20 06:00/20"
      0).1.transitions.length = 7 := by
  decide

/-- C2 as amended: for every transition list whose times are well-formed
(`\d\d:\d\d` with minutes < 60 — the shape and minute-validity the data
model prescribes), the normalization pass applied inside `parseDaySchedule`
(dedup, then anchor insertion, then sort) yields exactly one 00:00 entry,
strictly increasing times, and no duplicate times.  The "at most 6 entries"
part of the original claim is dropped (see the counterexample); without the
minutes < 60 restriction strictness can also fail (distinct strings such as
"01:70" and "02:10" denote the same minute count). -/
theorem normalizePass_invariants (ts : List Transition) (c : Nat)
    (h : ∀ t ∈ ts, isShapedTimeMM t.time = true) :
    (((normalizePass ts c).1.transitions.map (fun t => t.time)).count "00:00" = 1) ∧
    List.Pairwise (fun a b => timeToMinutes a.time < timeToMinutes b.time)
      (normalizePass ts c).1.transitions ∧
    ((normalizePass ts c).1.transitions.map (fun t => t.time)).Nodup := by
  obtain ⟨hnd, hiff⟩ := removeDupAux_times [] c ts
  have hmemiff : ∀ x, x ∈ (removeDupAux [] c ts).1.map (fun t => t.time) ↔
      x ∈ ts.map (fun t => t.time) := by
    intro x; rw [hiff x]; simp
  have hshaped_dd : ∀ t ∈ (removeDupAux [] c ts).1, isShapedTimeMM t.time = true := by
    intro t ht
    have hmm : t.time ∈ (removeDupAux [] c ts).1.map (fun t => t.time) :=
      List.mem_map_of_mem _ ht
    rw [hmemiff] at hmm
    obtain ⟨t2, ht2, he⟩ := List.mem_map.1 hmm
    exact he ▸ h t2 ht2
  have main : ∀ l : List Transition, (l.map (fun t => t.time)).Nodup →
      (∀ t ∈ l, isShapedTimeMM t.time = true) →
      ("00:00" ∈ l.map (fun t => t.time)) →
      ((((sortTransitions l).map (fun t => t.time)).count "00:00" = 1) ∧
        List.Pairwise (fun a b => timeToMinutes a.time < timeToMinutes b.time)
          (sortTransitions l) ∧
        ((sortTransitions l).map (fun t => t.time)).Nodup) := by
    intro l hl hsh hmem
    have hperm : List.Perm (sortTransitions l) l := sortTransitions_perm l
    have hpermmap : List.Perm ((sortTransitions l).map (fun t => t.time))
        (l.map (fun t => t.time)) := hperm.map _
    have hnod : ((sortTransitions l).map (fun t => t.time)).Nodup :=
      (hpermmap.nodup_iff).2 hl
    refine ⟨?_, ?_, hnod⟩
    · rw [hpermmap.count_eq]
      exact List.count_eq_one_of_mem hl hmem
    · have hsorted := sortTransitions_sorted l
      have hne : List.Pairwise (fun a b : Transition => a.time ≠ b.time)
          (sortTransitions l) := (List.pairwise_map).1 hnod
      have hand := hsorted.and hne
      refine List.Pairwise.imp_of_mem ?_ hand
      intro a b ha hb hab
      have hsa := hsh a ((hperm.mem_iff).1 ha)
      have hsb := hsh b ((hperm.mem_iff).1 hb)
      have hle : timeToMinutes a.time ≤ timeToMinutes b.time := by
        have h2 := hab.1; unfold transLE compareTime at h2; omega
      rcases eq_or_lt_of_le hle with he | hlt
      · exact absurd (timeToMinutes_inj _ _ hsa hsb he) hab.2
      · exact hlt
  by_cases hM : ((removeDupAux [] c ts).1.any fun t => t.time = "00:00") = true
  · have hout : (normalizePass ts c).1.transitions =
        sortTransitions (removeDupAux [] c ts).1 := by
      simp [normalizePass, removeDuplicateTransitions, ensureMidnightTransition, hM]
    rw [hout]
    have hmem : "00:00" ∈ (removeDupAux [] c ts).1.map (fun t => t.time) := by
      simp only [List.any_eq_true, decide_eq_true_eq] at hM
      obtain ⟨t, ht, he⟩ := hM
      exact he ▸ List.mem_map_of_mem _ ht
    exact main _ hnd hshaped_dd hmem
  · have hout : (normalizePass ts c).1.transitions =
        sortTransitions
          (⟨some (generateTransitionId (removeDupAux [] c ts).2).1, "00:00", 20⟩ ::
            (removeDupAux [] c ts).1) := by
      simp [normalizePass, removeDuplicateTransitions, ensureMidnightTransition, hM,
        generateTransitionId]
    rw [hout]
    have hnotmem : "00:00" ∉ (removeDupAux [] c ts).1.map (fun t => t.time) := by
      simp only [List.any_eq_true, decide_eq_true_eq] at hM
      intro hcon
      obtain ⟨t, ht, he⟩ := List.mem_map.1 hcon
      exact hM ⟨t, ht, he⟩
    refine main _ ?_ ?_ ?_
    · exact List.nodup_cons.2 ⟨hnotmem, hnd⟩
    · intro t ht
      rcases List.mem_cons.1 ht with rfl | ht2
      · show isShapedTimeMM "00:00" = true
        decide
      · exact hshaped_dd t ht2
    · exact List.mem_cons_self _ _

/-- Witness for `normalizePass_invariants`: normalizing the duplicate pair
`[06:00/22, 06:00/24]` (anchor missing) satisfies all three invariants. -/
theorem normalizePass_invariants_witness :
    (∀ t ∈ ([⟨none, "06:00", 22⟩, ⟨none, "06:00", 24⟩] : List Transition),
      isShapedTimeMM t.time = true) ∧
    ((((normalizePass [⟨none, "06:00", 22⟩, ⟨none, "06:00", 24⟩] 0).1.transitions.map
        (fun t => t.time)).count "00:00" = 1) ∧
      List.Pairwise (fun a b => timeToMinutes a.time < timeToMinutes b.time)
        (normalizePass [⟨none, "06:00", 22⟩, ⟨none, "06:00", 24⟩] 0).1.transitions ∧
      ((normalizePass [⟨none, "06:00", 22⟩, ⟨none, "06:00", 24⟩] 0).1.transitions.map
        (fun t => t.time)).Nodup) :=
  ⟨by decide, normalizePass_invariants _ 0 (by decide)⟩

/-! ## Claim C1: supporting lemmas -/

/-- On a duplicate-free, unseen input, dedup preserves every (time,
temperature) pair in order (ids may be filled in). -/
theorem removeDupAux_of_nodup (seen : List String) (c : Nat)
    (ts : List Transition)
    (hnd : (ts.map (fun t => t.time)).Nodup)
    (hdisj : ∀ t ∈ ts, t.time ∉ seen) :
    (removeDupAux seen c ts).1.map transPair = ts.map transPair := by
  induction ts generalizing seen c with
  | nil => simp [removeDupAux]
  | cons t rest ih =>
    have hm : t.time ∉ seen := hdisj t (List.mem_cons_self _ _)
    have heq : (removeDupAux seen c (t :: rest)).1 =
        ⟨some (idOrGenerate t.id c).1, t.time, t.temperature⟩ ::
          (removeDupAux (t.time :: seen) (idOrGenerate t.id c).2 rest).1 := by
      simp [removeDupAux, hm]
    rw [heq]
    simp only [List.map_cons]
    have hhead : (List.map (fun t => t.time) (t :: rest)).Nodup := hnd
    have hnotin : t.time ∉ rest.map (fun t => t.time) :=
      (List.nodup_cons.1 (by simpa using hnd)).1
    congr 1
    apply ih
    · exact (List.nodup_cons.1 (by simpa using hnd)).2
    · intro t2 ht2
      simp only [List.mem_cons, not_or]
      constructor
      · intro hcon
        exact hnotin (hcon ▸ List.mem_map_of_mem _ ht2)
      · exact hdisj t2 (List.mem_cons_of_mem _ ht2)

/-- The time column is the first component of the pair column. -/
theorem map_time_eq_map_fst_pairs (l : List Transition) :
    l.map (fun t => t.time) = (l.map transPair).map Prod.fst := by
  simp [transPair, Function.comp]

/-- `transLE`-sortedness only depends on the time column. -/
theorem pairwise_transLE_of_map_time_eq (l1 l2 : List Transition)
    (he : l1.map (fun t => t.time) = l2.map (fun t => t.time))
    (h : List.Pairwise transLE l1) : List.Pairwise transLE l2 := by
  have h1 : List.Pairwise (fun a b : String => compareTime a b ≤ 0)
      (l1.map fun t => t.time) := (List.pairwise_map).2 h
  rw [he] at h1
  have h2 : List.Pairwise (fun a b : Transition =>
      compareTime a.time b.time ≤ 0) l2 := (List.pairwise_map).1 h1
  exact h2

/-- Digits are not whitespace. -/
theorem isWsC_false_of_isDigitC (c : Char) (h : isDigitC c = true) :
    isWsC c = false := by
  simp [isDigitC] at h
  simp [isWsC]
  omega

/-- A nonempty list is not `isEmpty`. -/
theorem isEmpty_false_of_ne_nil {α : Type} (l : List α) (h : l ≠ []) :
    l.isEmpty = false := by
  cases l with
  | nil => exact absurd rfl h
  | cons a l => rfl

/-- Prepending a run of non-whitespace characters onto the split worker just
extends the current token. -/
theorem splitWsAux_nonws (t : List Char) (rest : List Char) (acc : List Char)
    (ht : ∀ c ∈ t, isWsC c = false) :
    splitWsAux (t ++ rest) acc = splitWsAux rest (t.reverse ++ acc) := by
  induction t generalizing acc with
  | nil => simp
  | cons c cs ih =>
    have hc := ht c (List.mem_cons_self _ _)
    simp only [List.cons_append, splitWsAux, hc, Bool.false_eq_true, if_false,
      List.append_eq]
    rw [ih _ (fun x hx => ht x (List.mem_cons_of_mem _ hx))]
    simp [List.append_assoc]

/-- Splitting the space-join of nonempty whitespace-free tokens recovers the
tokens. -/
theorem splitWs_joinSpace (toks : List (List Char))
    (hne : ∀ t ∈ toks, t ≠ [])
    (hws : ∀ t ∈ toks, ∀ c ∈ t, isWsC c = false) :
    splitWs (joinSpace toks) = toks := by
  induction toks with
  | nil => rfl
  | cons t rest ih =>
    have htne := hne t (List.mem_cons_self _ _)
    have htws := hws t (List.mem_cons_self _ _)
    cases rest with
    | nil =>
      show splitWsAux (joinSpace [t]) [] = [t]
      have hj : joinSpace [t] = t ++ [] := by simp [joinSpace]
      rw [hj, splitWsAux_nonws t [] [] htws]
      have hem : (t.reverse ++ ([] : List Char)).isEmpty = false := by
        apply isEmpty_false_of_ne_nil
        simpa using htne
      rw [show splitWsAux [] (t.reverse ++ []) =
        if (t.reverse ++ ([] : List Char)).isEmpty then []
        else [(t.reverse ++ ([] : List Char)).reverse] from rfl, hem]
      simp
    | cons r rs =>
      have hj : joinSpace (t :: r :: rs) = t ++ ' ' :: joinSpace (r :: rs) := by
        simp [joinSpace]
      show splitWsAux (joinSpace (t :: r :: rs)) [] = t :: r :: rs
      rw [hj, splitWsAux_nonws t _ [] htws]
      have hacc : (t.reverse ++ ([] : List Char)).isEmpty = false := by
        apply isEmpty_false_of_ne_nil
        simpa using htne
      have hwsp : isWsC ' ' = true := rfl
      simp only [splitWsAux, hwsp, if_true, hacc, Bool.false_eq_true, if_false]
      rw [show (t.reverse ++ ([] : List Char)).reverse = t by simp]
      rw [show splitWsAux (joinSpace (r :: rs)) [] =
        splitWs (joinSpace (r :: rs)) from rfl]
      rw [ih (fun x hx => hne x (List.mem_cons_of_mem _ hx))
        (fun x hx => hws x (List.mem_cons_of_mem _ hx))]

/-- Facts about the rendered temperature of every legal schedule value
`n/2, 8 ≤ n ≤ 70`: parsing it back with the token regex's number parser
recovers the value exactly, and the rendered text is a nonempty
whitespace-free string.  Finite domain, settled by computation. -/
theorem formatTemp_facts : ∀ n : Nat, n < 71 → 8 ≤ n →
    (parseNumber (formatTemp ((n : Rat) / 2)).data = some ((n : Rat) / 2) ∧
      (formatTemp ((n : Rat) / 2)).data ≠ [] ∧
      ∀ c ∈ (formatTemp ((n : Rat) / 2)).data, isWsC c = false) := by decide

/-- The space-join of a nonempty family of nonempty tokens is nonempty. -/
theorem joinSpace_ne_nil (toks : List (List Char)) (h0 : toks ≠ [])
    (hne : ∀ t ∈ toks, t ≠ []) : joinSpace toks ≠ [] := by
  cases toks with
  | nil => exact absurd rfl h0
  | cons t rest =>
    cases rest with
    | nil => simpa [joinSpace] using hne t (List.mem_cons_self _ _)
    | cons r rs =>
      have := hne t (List.mem_cons_self _ _)
      cases t with
      | nil => exact absurd rfl this
      | cons c cs => simp [joinSpace]

/-- `dropWhile` is the identity when the head test fails. -/
theorem dropWhile_eq_self_of_head (l : List Char)
    (h : ∀ c ∈ l.head?, isWsC c = false) :
    l.dropWhile (fun c => isWsC c) = l := by
  cases l with
  | nil => rfl
  | cons c cs =>
    have hc := h c rfl
    simp [List.dropWhile_cons, hc]

/-- The first character of the join is the first token's first character,
hence not whitespace. -/
theorem joinSpace_head_nonws (toks : List (List Char))
    (hne : ∀ t ∈ toks, t ≠ [])
    (hws : ∀ t ∈ toks, ∀ c ∈ t, isWsC c = false) :
    ∀ c ∈ (joinSpace toks).head?, isWsC c = false := by
  cases toks with
  | nil => intro c hc; cases hc
  | cons t rest =>
    have htne := hne t (List.mem_cons_self _ _)
    have htws := hws t (List.mem_cons_self _ _)
    cases t with
    | nil => exact absurd rfl htne
    | cons c0 cs =>
      cases rest with
      | nil =>
        intro c hc
        have he : c0 = c := by simpa [joinSpace] using hc
        exact he ▸ htws c0 (List.mem_cons_self _ _)
      | cons r rs =>
        intro c hc
        have he : c0 = c := by simpa [joinSpace] using hc
        exact he ▸ htws c0 (List.mem_cons_self _ _)

/-- The last character of the join is the last token's last character,
hence not whitespace. -/
theorem joinSpace_rev_head_nonws (toks : List (List Char))
    (hne : ∀ t ∈ toks, t ≠ [])
    (hws : ∀ t ∈ toks, ∀ c ∈ t, isWsC c = false) :
    ∀ c ∈ (joinSpace toks).reverse.head?, isWsC c = false := by
  induction toks with
  | nil => intro c hc; cases hc
  | cons t rest ih =>
    have htne := hne t (List.mem_cons_self _ _)
    have htws := hws t (List.mem_cons_self _ _)
    cases rest with
    | nil =>
      intro c hc
      have hj : joinSpace [t] = t := by simp [joinSpace]
      rw [hj] at hc
      have hcm : c ∈ t.reverse := by
        cases hr : t.reverse with
        | nil => rw [hr] at hc; cases hc
        | cons d ds =>
          rw [hr] at hc
          have he : d = c := by simpa using hc
          rw [← he]
          exact List.mem_cons_self d ds
      exact htws c (List.mem_reverse.1 hcm)
    | cons r rs =>
      intro c hc
      have hj : joinSpace (t :: r :: rs) = t ++ ' ' :: joinSpace (r :: rs) := by
        simp [joinSpace]
      rw [hj] at hc
      have hrev : (t ++ ' ' :: joinSpace (r :: rs)).reverse =
          (joinSpace (r :: rs)).reverse ++ ' ' :: t.reverse := by
        simp
      rw [hrev] at hc
      have hjn : joinSpace (r :: rs) ≠ [] :=
        joinSpace_ne_nil _ (by simp)
          (fun x hx => hne x (List.mem_cons_of_mem _ hx))
      have hjrev : (joinSpace (r :: rs)).reverse ≠ [] := by
        simpa using hjn
      cases hr : (joinSpace (r :: rs)).reverse with
      | nil => exact absurd hr hjrev
      | cons d ds =>
        rw [hr] at hc
        have he : d = c := by simpa using hc
        have hih := ih (fun x hx => hne x (List.mem_cons_of_mem _ hx))
          (fun x hx => hws x (List.mem_cons_of_mem _ hx))
        rw [hr] at hih
        exact he ▸ hih d rfl

/-- Trimming the space-join of nonempty whitespace-free tokens changes
nothing. -/
theorem trimChars_joinSpace (toks : List (List Char))
    (hne : ∀ t ∈ toks, t ≠ [])
    (hws : ∀ t ∈ toks, ∀ c ∈ t, isWsC c = false) :
    trimChars (joinSpace toks) = joinSpace toks := by
  unfold trimChars
  rw [dropWhile_eq_self_of_head _ (joinSpace_head_nonws toks hne hws),
    dropWhile_eq_self_of_head _ (joinSpace_rev_head_nonws toks hne hws),
    List.reverse_reverse]

/-- A serialized token `HH:MM/temp` is re-accepted by the token regex and
parses back to exactly the same (time, temperature). -/
theorem matchTransitionToken_token (t : Transition)
    (hsh : isShapedTime t.time = true)
    (htemp : isHalfStepTemp t.temperature) :
    matchTransitionToken (t.time.data ++ '/' :: (formatTemp t.temperature).data) =
      some (t.time, t.temperature) := by
  obtain ⟨n, hn71, hn8, hq⟩ := htemp
  rcases hd : t.time.data with _ | ⟨c1, _ | ⟨c2, _ | ⟨c3, _ | ⟨c4, _ | ⟨c5, _ | crest⟩⟩⟩⟩⟩ <;>
    simp [isShapedTime, hd] at hsh
  obtain ⟨⟨⟨⟨hd1, hd2⟩, hcol⟩, hd4⟩, hd5⟩ := hsh
  subst hcol
  have hpn := (formatTemp_facts n hn71 hn8).1
  rw [hq]
  simp only [List.cons_append, List.nil_append, matchTransitionToken,
    hd1, hd2, hd4, hd5, Bool.and_self, if_true, hpn]
  rw [show String.mk [c1, c2, ':', c4, c5] = t.time from by rw [← hd]]

/-- Characters of a serialized token are never whitespace. -/
theorem token_chars_nonws (t : Transition) (hsh : isShapedTime t.time = true)
    (htemp : isHalfStepTemp t.temperature) :
    ∀ c ∈ (t.time.data ++ '/' :: (formatTemp t.temperature).data),
      isWsC c = false := by
  obtain ⟨n, hn71, hn8, hq⟩ := htemp
  rcases hd : t.time.data with _ | ⟨c1, _ | ⟨c2, _ | ⟨c3, _ | ⟨c4, _ | ⟨c5, _ | crest⟩⟩⟩⟩⟩ <;>
    simp [isShapedTime, hd] at hsh
  obtain ⟨⟨⟨⟨hd1, hd2⟩, hcol⟩, hd4⟩, hd5⟩ := hsh
  subst hcol
  intro c hc
  rcases List.mem_append.1 hc with hcl | hcr
  · have : c = c1 ∨ c = c2 ∨ c = ':' ∨ c = c4 ∨ c = c5 := by simpa using hcl
    rcases this with rfl | rfl | rfl | rfl | rfl
    · exact isWsC_false_of_isDigitC _ hd1
    · exact isWsC_false_of_isDigitC _ hd2
    · rfl
    · exact isWsC_false_of_isDigitC _ hd4
    · exact isWsC_false_of_isDigitC _ hd5
  · rcases List.mem_cons.1 hcr with rfl | hfmt
    · rfl
    · exact (formatTemp_facts n hn71 hn8).2.2 c (by rw [← hq]; exact hfmt)

/-- Parsing a list of serialized tokens yields the same (time, temperature)
column, in order. -/
theorem parseTokens_tokens (c : Nat) (l : List Transition)
    (h : ∀ t ∈ l,
      matchTransitionToken (t.time.data ++ '/' :: (formatTemp t.temperature).data) =
        some (t.time, t.temperature)) :
    (parseTokens c (l.map (fun t =>
      t.time.data ++ '/' :: (formatTemp t.temperature).data))).1.map transPair =
      l.map transPair := by
  induction l generalizing c with
  | nil => rfl
  | cons t rest ih =>
    have ht := h t (List.mem_cons_self _ _)
    simp only [List.map_cons, parseTokens, ht]
    simp only [List.map_cons, transPair]
    congr 1
    exact ih _ (fun x hx => h x (List.mem_cons_of_mem _ hx))

/-! ## Claim C1, main theorem -/

/-- C1: for every normalized `DaySchedule` — well-formed `HH:MM` times (the
shape the data model prescribes), all times distinct, a `00:00` entry
present, chronologically sorted, temperatures in `[4, 35]` quantized to 0.5
— parsing the serialization reproduces the same multiset of
(time, temperature) pairs (in fact the very same column, in order; ids are
regenerated).  Counters `c1`, `c2` are the id-generator states of the two
sessions. -/
theorem parse_serialize_roundtrip (x : DaySchedule) (c1 c2 : Nat)
    (hshape : ∀ t ∈ x.transitions, isShapedTime t.time = true)
    (hnodup : (x.transitions.map (fun t => t.time)).Nodup)
    (hmid : "00:00" ∈ x.transitions.map (fun t => t.time))
    (hsorted : List.Pairwise transLE x.transitions)
    (htemp : ∀ t ∈ x.transitions, isHalfStepTemp t.temperature) :
    List.Perm
      ((parseDaySchedule (serializeDaySchedule x c1).1 c2).1.transitions.map transPair)
      (x.transitions.map transPair) := by
  have hdd1 : (removeDupAux [] c1 x.transitions).1.map transPair =
      x.transitions.map transPair :=
    removeDupAux_of_nodup [] c1 x.transitions hnodup (by simp)
  have hddtime : (removeDupAux [] c1 x.transitions).1.map (fun t => t.time) =
      x.transitions.map (fun t => t.time) := by
    rw [map_time_eq_map_fst_pairs, map_time_eq_map_fst_pairs, hdd1]
  have hddsorted : List.Pairwise transLE (removeDupAux [] c1 x.transitions).1 :=
    pairwise_transLE_of_map_time_eq _ _ hddtime.symm hsorted
  have hsortid : sortTransitions (removeDupAux [] c1 x.transitions).1 =
      (removeDupAux [] c1 x.transitions).1 :=
    sortTransitions_eq_self _ hddsorted
  have hser : (serializeDaySchedule x c1).1 =
      String.mk (joinSpace ((removeDupAux [] c1 x.transitions).1.map
        (fun t => t.time.data ++ '/' :: (formatTemp t.temperature).data))) := by
    simp [serializeDaySchedule, removeDuplicateTransitions, hsortid]
  have hmem_pairs : ∀ t ∈ (removeDupAux [] c1 x.transitions).1,
      isShapedTime t.time = true ∧ isHalfStepTemp t.temperature := by
    intro t ht
    have hp : transPair t ∈ x.transitions.map transPair := by
      rw [← hdd1]; exact List.mem_map_of_mem _ ht
    obtain ⟨t2, ht2, he⟩ := List.mem_map.1 hp
    have htime : t2.time = t.time := congrArg Prod.fst he
    have htmp : t2.temperature = t.temperature := congrArg Prod.snd he
    exact ⟨htime ▸ hshape t2 ht2, htmp ▸ htemp t2 ht2⟩
  have htok : ∀ t ∈ (removeDupAux [] c1 x.transitions).1,
      matchTransitionToken (t.time.data ++ '/' :: (formatTemp t.temperature).data) =
        some (t.time, t.temperature) := fun t ht =>
    matchTransitionToken_token t (hmem_pairs t ht).1 (hmem_pairs t ht).2
  have hxne : x.transitions ≠ [] := by
    intro h0; rw [h0] at hmid; cases hmid
  have hddne : (removeDupAux [] c1 x.transitions).1 ≠ [] := by
    intro h0
    rw [h0] at hdd1
    exact hxne (List.map_eq_nil_iff.1 hdd1.symm)
  have hptne : ∀ tok ∈ (removeDupAux [] c1 x.transitions).1.map
      (fun t => t.time.data ++ '/' :: (formatTemp t.temperature).data), tok ≠ [] := by
    intro tok htk
    obtain ⟨t, ht, rfl⟩ := List.mem_map.1 htk
    simp
  have hptws : ∀ tok ∈ (removeDupAux [] c1 x.transitions).1.map
      (fun t => t.time.data ++ '/' :: (formatTemp t.temperature).data),
      ∀ c ∈ tok, isWsC c = false := by
    intro tok htk
    obtain ⟨t, ht, rfl⟩ := List.mem_map.1 htk
    exact token_chars_nonws t (hmem_pairs t ht).1 (hmem_pairs t ht).2
  have hpartsne : (removeDupAux [] c1 x.transitions).1.map
      (fun t => t.time.data ++ '/' :: (formatTemp t.temperature).data) ≠ [] := by
    intro h0; exact hddne (List.map_eq_nil_iff.1 h0)
  have hjoin_ne : joinSpace ((removeDupAux [] c1 x.transitions).1.map
      (fun t => t.time.data ++ '/' :: (formatTemp t.temperature).data)) ≠ [] :=
    joinSpace_ne_nil _ hpartsne hptne
  have htrim : trimChars (joinSpace ((removeDupAux [] c1 x.transitions).1.map
      (fun t => t.time.data ++ '/' :: (formatTemp t.temperature).data))) =
      joinSpace ((removeDupAux [] c1 x.transitions).1.map
        (fun t => t.time.data ++ '/' :: (formatTemp t.temperature).data)) :=
    trimChars_joinSpace _ hptne hptws
  have hsplit : splitWs (joinSpace ((removeDupAux [] c1 x.transitions).1.map
      (fun t => t.time.data ++ '/' :: (formatTemp t.temperature).data))) =
      (removeDupAux [] c1 x.transitions).1.map
        (fun t => t.time.data ++ '/' :: (formatTemp t.temperature).data) :=
    splitWs_joinSpace _ hptne hptws
  have hpt : (parseTokens c2 ((removeDupAux [] c1 x.transitions).1.map
      (fun t => t.time.data ++ '/' :: (formatTemp t.temperature).data))).1.map transPair =
      x.transitions.map transPair := by
    rw [parseTokens_tokens c2 _ htok, hdd1]
  have hptne2 : (parseTokens c2 ((removeDupAux [] c1 x.transitions).1.map
      (fun t => t.time.data ++ '/' :: (formatTemp t.temperature).data))).1 ≠ [] := by
    intro h0
    rw [h0] at hpt
    exact hxne (List.map_eq_nil_iff.1 hpt.symm)
  have hpttime : (parseTokens c2 ((removeDupAux [] c1 x.transitions).1.map
      (fun t => t.time.data ++ '/' :: (formatTemp t.temperature).data))).1.map
        (fun t => t.time) = x.transitions.map (fun t => t.time) := by
    rw [map_time_eq_map_fst_pairs, map_time_eq_map_fst_pairs, hpt]
  have hptnodup : ((parseTokens c2 ((removeDupAux [] c1 x.transitions).1.map
      (fun t => t.time.data ++ '/' :: (formatTemp t.temperature).data))).1.map
        (fun t => t.time)).Nodup := by
    rw [hpttime]; exact hnodup
  have hdd2 : (removeDupAux []
      (parseTokens c2 ((removeDupAux [] c1 x.transitions).1.map
        (fun t => t.time.data ++ '/' :: (formatTemp t.temperature).data))).2
      (parseTokens c2 ((removeDupAux [] c1 x.transitions).1.map
        (fun t => t.time.data ++ '/' :: (formatTemp t.temperature).data))).1).1.map
        transPair = x.transitions.map transPair := by
    rw [removeDupAux_of_nodup _ _ _ hptnodup (by simp), hpt]
  have hdd2time : (removeDupAux []
      (parseTokens c2 ((removeDupAux [] c1 x.transitions).1.map
        (fun t => t.time.data ++ '/' :: (formatTemp t.temperature).data))).2
      (parseTokens c2 ((removeDupAux [] c1 x.transitions).1.map
        (fun t => t.time.data ++ '/' :: (formatTemp t.temperature).data))).1).1.map
        (fun t => t.time) = x.transitions.map (fun t => t.time) := by
    rw [map_time_eq_map_fst_pairs, map_time_eq_map_fst_pairs, hdd2]
  have hdd2sorted : List.Pairwise transLE (removeDupAux []
      (parseTokens c2 ((removeDupAux [] c1 x.transitions).1.map
        (fun t => t.time.data ++ '/' :: (formatTemp t.temperature).data))).2
      (parseTokens c2 ((removeDupAux [] c1 x.transitions).1.map
        (fun t => t.time.data ++ '/' :: (formatTemp t.temperature).data))).1).1 :=
    pairwise_transLE_of_map_time_eq _ _ hdd2time.symm hsorted
  have hdd2any : ((removeDupAux []
      (parseTokens c2 ((removeDupAux [] c1 x.transitions).1.map
        (fun t => t.time.data ++ '/' :: (formatTemp t.temperature).data))).2
      (parseTokens c2 ((removeDupAux [] c1 x.transitions).1.map
        (fun t => t.time.data ++ '/' :: (formatTemp t.temperature).data))).1).1.any
        fun t => t.time = "00:00") = true := by
    simp only [List.any_eq_true, decide_eq_true_eq]
    have hm : "00:00" ∈ (removeDupAux []
        (parseTokens c2 ((removeDupAux [] c1 x.transitions).1.map
          (fun t => t.time.data ++ '/' :: (formatTemp t.temperature).data))).2
        (parseTokens c2 ((removeDupAux [] c1 x.transitions).1.map
          (fun t => t.time.data ++ '/' :: (formatTemp t.temperature).data))).1).1.map
          (fun t => t.time) := by rw [hdd2time]; exact hmid
    obtain ⟨t, ht, he⟩ := List.mem_map.1 hm
    exact ⟨t, ht, he⟩
  rw [hser]
  have hfinal : (parseDaySchedule (String.mk (joinSpace
      ((removeDupAux [] c1 x.transitions).1.map
        (fun t => t.time.data ++ '/' :: (formatTemp t.temperature).data)))) c2).1.transitions =
      sortTransitions (removeDupAux []
        (parseTokens c2 ((removeDupAux [] c1 x.transitions).1.map
          (fun t => t.time.data ++ '/' :: (formatTemp t.temperature).data))).2
        (parseTokens c2 ((removeDupAux [] c1 x.transitions).1.map
          (fun t => t.time.data ++ '/' :: (formatTemp t.temperature).data))).1).1 := by
    simp [parseDaySchedule, htrim, isEmpty_false_of_ne_nil _ hjoin_ne, hsplit,
      isEmpty_false_of_ne_nil _ hptne2, removeDuplicateTransitions,
      ensureMidnightTransition, hdd2any]
  rw [hfinal, sortTransitions_eq_self _ hdd2sorted, hdd2]

/-- Witness for `parse_serialize_roundtrip` on the concrete normalized day
`[00:00/20 (id a), 06:30/21.5 (id b)]`. -/
theorem parse_serialize_roundtrip_witness :
    (∀ t ∈ (DaySchedule.mk [⟨some "a", "00:00", 20⟩,
        ⟨some "b", "06:30", (43 : Rat)/2⟩]).transitions, isShapedTime t.time = true) ∧
    ((DaySchedule.mk [⟨some "a", "00:00", 20⟩,
        ⟨some "b", "06:30", (43 : Rat)/2⟩]).transitions.map (fun t => t.time)).Nodup ∧
    "00:00" ∈ (DaySchedule.mk [⟨some "a", "00:00", 20⟩,
        ⟨some "b", "06:30", (43 : Rat)/2⟩]).transitions.map (fun t => t.time) ∧
    List.Pairwise transLE (DaySchedule.mk [⟨some "a", "00:00", 20⟩,
        ⟨some "b", "06:30", (43 : Rat)/2⟩]).transitions ∧
    (∀ t ∈ (DaySchedule.mk [⟨some "a", "00:00", 20⟩,
        ⟨some "b", "06:30", (43 : Rat)/2⟩]).transitions, isHalfStepTemp t.temperature) ∧
    List.Perm
      ((parseDaySchedule (serializeDaySchedule (DaySchedule.mk
          [⟨some "a", "00:00", 20⟩, ⟨some "b", "06:30", (43 : Rat)/2⟩]) 0).1
        0).1.transitions.map transPair)
      ((DaySchedule.mk [⟨some "a", "00:00", 20⟩,
        ⟨some "b", "06:30", (43 : Rat)/2⟩]).transitions.map transPair) := by
  have htemps : ∀ t ∈ (DaySchedule.mk [⟨some "a", "00:00", 20⟩,
      ⟨some "b", "06:30", (43 : Rat)/2⟩]).transitions, isHalfStepTemp t.temperature := by
    intro t ht
    rcases List.mem_cons.1 ht with rfl | ht2
    · exact ⟨40, by norm_num⟩
    · rcases List.mem_cons.1 ht2 with rfl | h3
      · exact ⟨43, by norm_num⟩
      · cases h3
  exact ⟨by decide, by decide, by decide, by decide, htemps,
    parse_serialize_roundtrip _ 0 0 (by decide) (by decide) (by decide)
      (by decide) htemps⟩
